import Mathlib
set_option linter.unreachableTactic false
set_option linter.unnecessarySeqFocus false
set_option linter.unusedTactic false

/-!
Verification of the cascading cipher-resolution engine
(`UniversalCipherBreaker` in `universalBreaker.js`).

The JavaScript source is shallowly embedded: JS numbers that can be
NaN/±Infinity are modelled by `JSNum` (an exact rational plus the three
special values), JS strings by `String`, JS arrays by `List`, thrown
errors by `Except`, and the three strategy collaborators by function
parameters returning `Option` results (a collaborator that throws, or
returns a falsy value, is modelled as `none`, matching the try/catch
that swallows strategy failures).
-/

/-- A JavaScript number: NaN, +Infinity, -Infinity, or a finite value
(modelled exactly as a rational; the operations used by the code —
`Math.max`/`Math.min` with constant bounds, division by a positive
constant, multiplication — are exact on the values at issue). -/
inductive JSNum where
  | nan : JSNum
  | posInf : JSNum
  | negInf : JSNum
  | fin : ℚ → JSNum
deriving DecidableEq, Repr

/-- `Math.max(a, x)` for a finite constant `a`. -/
def jsMaxC (a : ℚ) : JSNum → JSNum
  | JSNum.nan => JSNum.nan
  | JSNum.posInf => JSNum.posInf
  | JSNum.negInf => JSNum.fin a
  | JSNum.fin q => JSNum.fin (max a q)

/-- `Math.min(a, x)` for a finite constant `a`. -/
def jsMinC (a : ℚ) : JSNum → JSNum
  | JSNum.nan => JSNum.nan
  | JSNum.posInf => JSNum.fin a
  | JSNum.negInf => JSNum.negInf
  | JSNum.fin q => JSNum.fin (min a q)

/-- `x / d` for a positive finite constant `d`. -/
def jsDivC (x : JSNum) (d : ℚ) : JSNum :=
  match x with
  | JSNum.nan => JSNum.nan
  | JSNum.posInf => JSNum.posInf
  | JSNum.negInf => JSNum.negInf
  | JSNum.fin q => JSNum.fin (q / d)

/-- `a + x` for a finite constant `a`. -/
def jsAddC (a : ℚ) : JSNum → JSNum
  | JSNum.nan => JSNum.nan
  | JSNum.posInf => JSNum.posInf
  | JSNum.negInf => JSNum.negInf
  | JSNum.fin q => JSNum.fin (a + q)

/-- JS multiplication, with the IEEE special-value rules
(`NaN` absorbs; `±Infinity * 0 = NaN`; infinities multiply by sign). -/
def jsMul : JSNum → JSNum → JSNum
  | JSNum.nan, _ => JSNum.nan
  | _, JSNum.nan => JSNum.nan
  | JSNum.posInf, JSNum.posInf => JSNum.posInf
  | JSNum.posInf, JSNum.negInf => JSNum.negInf
  | JSNum.negInf, JSNum.posInf => JSNum.negInf
  | JSNum.negInf, JSNum.negInf => JSNum.posInf
  | JSNum.posInf, JSNum.fin q =>
      if 0 < q then JSNum.posInf else if q < 0 then JSNum.negInf else JSNum.nan
  | JSNum.negInf, JSNum.fin q =>
      if 0 < q then JSNum.negInf else if q < 0 then JSNum.posInf else JSNum.nan
  | JSNum.fin q, JSNum.posInf =>
      if 0 < q then JSNum.posInf else if q < 0 then JSNum.negInf else JSNum.nan
  | JSNum.fin q, JSNum.negInf =>
      if 0 < q then JSNum.negInf else if q < 0 then JSNum.posInf else JSNum.nan
  | JSNum.fin a, JSNum.fin b => JSNum.fin (a * b)

/-- A raw-score argument as received by `normalizeScore`: either not a
number at all (caught by the `typeof` check) or a JS number. -/
inductive JSRaw where
  | notNum : JSRaw
  | num : JSNum → JSRaw
deriving DecidableEq, Repr

/-- JS truthiness of the optional `validWordPercentage` field:
absent, `NaN` and `0` are falsy; every other number is truthy. -/
def truthyNum : Option JSNum → Bool
  | none => false
  | some JSNum.nan => false
  | some (JSNum.fin q) => decide (q ≠ 0)
  | some JSNum.posInf => true
  | some JSNum.negInf => true

/-- The `options` object of `normalizeScore`. -/
structure NormalizeOptions where
  validWordPercentage : Option JSNum
  preservesSpaces : Bool
deriving DecidableEq, Repr

/-- `this.scoreWeights[method] || 1.0` with
`scoreWeights = { caesar: 1.2, railFence: 0.8, vigenere: 0.7 }`. -/
def scoreWeight (method : String) : ℚ :=
  if method = "caesar" then 12/10
  else if method = "railFence" then 8/10
  else if method = "vigenere" then 7/10
  else 1

/-- `UniversalCipherBreaker.normalizeScore(method, rawScore, options)`:
guard non-numbers and NaN to 0; scale `max(0, rawScore)/1000`; apply the
method weight; multiply by `0.3 + 0.7*clamp(pct,0,100)/100` when
`options.validWordPercentage` is truthy; multiply by 1.2 when
`options.preservesSpaces`; clamp the result into `[0,1]`. The try/catch
around the body is modelled by totality: no step can fail. -/
def normalizeScore (method : String) (rawScore : JSRaw)
    (options : NormalizeOptions) : JSNum :=
  match rawScore with
  | JSRaw.notNum => JSNum.fin 0
  | JSRaw.num x =>
    if x = JSNum.nan then JSNum.fin 0
    else
      let normalizedScore := jsDivC (jsMaxC 0 x) 1000
      let normalizedScore := jsMul normalizedScore (JSNum.fin (scoreWeight method))
      let normalizedScore :=
        if truthyNum options.validWordPercentage then
          match options.validWordPercentage with
          | some p =>
              let wordScore := jsDivC (jsMaxC 0 (jsMinC 100 p)) 100
              jsMul normalizedScore (jsAddC (3/10) (jsMul (JSNum.fin (7/10)) wordScore))
          | none => normalizedScore
        else normalizedScore
      let normalizedScore :=
        if options.preservesSpaces then jsMul normalizedScore (JSNum.fin (12/10))
        else normalizedScore
      jsMaxC 0 (jsMinC 1 normalizedScore)

/-- ASCII-alphabetic test, the character class `[a-zA-Z]`. -/
def isAsciiAlpha (c : Char) : Bool :=
  (decide ('a' ≤ c) && decide (c ≤ 'z')) || (decide ('A' ≤ c) && decide (c ≤ 'Z'))

/-- `word.replace(/[^a-zA-Z]/g, '').toUpperCase()`. -/
def stripUpper (w : String) : String :=
  String.mk ((w.toList.filter isAsciiAlpha).map Char.toUpper)

/-- `s.split(/\s+/)`: maximal whitespace runs separate the string, with
an initial empty token when the string starts with whitespace and a
final empty token when it ends with whitespace; `"" ↦ [""]`. -/
def jsSplitWhitespace (s : String) : List String :=
  match s.toList with
  | [] => [""]
  | c :: cs =>
    let core := ((List.splitOnP Char.isWhitespace (c :: cs)).map
        (fun l => String.mk l)).filter (fun t => t ≠ "")
    let core := if c.isWhitespace then "" :: core else core
    if (((c :: cs).getLast?).getD c).isWhitespace then core ++ [""] else core

/-- The `UniversalCipherBreaker` instance state consulted by
`validateText`: the (possibly failed-to-load) `Words.json` dictionary
and the two collaborators' word lists used as fallback. -/
structure Breaker where
  wordsDictionary : Option (List String)
  vigenereCommonWords : List String
  classicCommonWords : List String

/-- `this.wordsDictionarySet`: the dictionary uppercased (as a list
standing for the JS `Set`; membership is all that is consulted). -/
def wordsDictionarySet (B : Breaker) : Option (List String) :=
  B.wordsDictionary.map (fun d => d.map stripUpperAll)
where
  /-- `word.toUpperCase()` on a whole dictionary word. -/
  stripUpperAll (w : String) : String := String.mk (w.toList.map Char.toUpper)

/-- The dictionary `validateText` uses: `wordsDictionarySet` when it is
present and non-empty, otherwise the union of the two collaborators'
`commonWords` lists. -/
def effectiveDictionary (B : Breaker) : List String :=
  match wordsDictionarySet B with
  | some d => if 0 < d.length then d else B.vigenereCommonWords ++ B.classicCommonWords
  | none => B.vigenereCommonWords ++ B.classicCommonWords

/-- The object returned by `validateText` (and built inline in the
Vigenère branch of `breakCipher`). -/
structure ValidationReport where
  confidence : ℚ
  validWords : ℤ
  totalWords : ℕ
  invalidWords : List String
deriving DecidableEq, Repr

/-- The prepared token list of `validateText`: split on whitespace,
drop empty tokens, strip non-letters and uppercase, drop tokens that
became empty. -/
def prepWords (text : String) : List String :=
  (((jsSplitWhitespace text).filter (fun w => 0 < w.length)).map stripUpper).filter
    (fun w => 0 < w.length)

/-- `UniversalCipherBreaker.validateText(text)`. -/
def validateText (B : Breaker) (text : String) : ValidationReport :=
  if text = "" then ⟨0, 0, 0, []⟩
  else
    let words := prepWords text
    if words.length = 0 then ⟨0, 0, 0, []⟩
    else
      let dictionary := effectiveDictionary B
      let step := fun (acc : ℤ × List String) (w : String) =>
        if dictionary.contains w then (acc.1 + 1, acc.2) else (acc.1, acc.2 ++ [w])
      let counted := words.foldl step (0, [])
      ⟨(counted.1 : ℚ) / (words.length : ℚ), counted.1, words.length, counted.2⟩

/-- `Math.round(q)` for a finite argument: round half toward +infinity. -/
def jsRound (q : ℚ) : ℤ := ⌊q + 1/2⌋

/-- `parseInt(s)` restricted to the decimal integer strings this code
feeds it (`Int.toString` output); unused out-of-domain inputs default
to 0. -/
def jsParseInt (s : String) : ℤ := (s.toInt?).getD 0

/-- The result object of `CipherBreaker.breakCaesar`. -/
structure CaesarResult where
  shift : ℤ
  text : String
  score : ℚ
deriving DecidableEq, Repr

/-- The result object of `CipherBreaker.breakRailFence`. -/
structure RailFenceResult where
  rails : ℤ
  text : String
  score : ℚ
deriving DecidableEq, Repr

/-- The optional `validation` object of a `VigenereBreaker` result:
`percentage` is a number (a non-number `percentage` is modelled as the
whole object being absent, which takes the same `validateText`
fallback branch); `invalidWords` may be absent. -/
structure VigenereValidation where
  percentage : ℚ
  invalidWords : Option (List String)
deriving DecidableEq, Repr

/-- The result object of `VigenereBreaker.breakVigenere`. -/
structure VigenereResult where
  key : String
  decrypted : String
  score : ℚ
  validation : Option VigenereValidation
deriving DecidableEq, Repr

/-- The three strategy collaborators, as pure functions of the
ciphertext (each already closed over its configured dictionary).
`none` models a collaborator that threw (caught by the coordinator) or
returned a falsy result. -/
structure Strategies where
  breakCaesar : String → Option CaesarResult
  breakRailFence : String → Option RailFenceResult
  breakVigenere : String → Option VigenereResult

/-- An entry of the coordinator's `results` array (the
`additionalInfo` word fields are flattened in). -/
structure Candidate where
  method : String
  key : String
  decrypted : String
  rawScore : ℚ
  confidence : ℚ
  validWords : ℤ
  totalWords : ℕ
  invalidWords : List String
deriving DecidableEq, Repr

instance : Inhabited Candidate := ⟨⟨"", "", "", 0, 0, 0, 0, []⟩⟩

/-- The method-specific `params` object of an outcome. -/
inductive Params where
  | shift : ℤ → Params
  | rails : ℤ → Params
  | key : String → Params
deriving DecidableEq, Repr

/-- The `details` object of an outcome: the early-exit paths return
the whole `validateText` report (which carries a `confidence` field),
the fallback path rebuilds only the three word fields. -/
structure Details where
  validWords : ℤ
  totalWords : ℕ
  invalidWords : List String
  confidence : Option ℚ
deriving DecidableEq, Repr

/-- The object `breakCipher` returns (resolves with). -/
structure Outcome where
  success : Bool
  method : String
  decrypted : String
  confidence : ℚ
  key : String
  params : Params
  details : Details
deriving DecidableEq, Repr

/-- The two errors `breakCipher` itself throws:
`'Invalid ciphertext provided'` and
`'No valid decryption results found'`. -/
inductive BreakError where
  | inputError : BreakError
  | exhaustionError : BreakError
deriving DecidableEq, Repr

/-- The ciphertext argument: a string, or any non-string value (which
the `typeof` guard rejects). -/
inductive JSInput where
  | str : String → JSInput
  | nonString : JSInput

/-- One run of `breakCipher`. `result` is the value resolved or the
error thrown; `results` is the coordinator's collected candidate array
in cascade (push) order; `invoked` lists the strategies whose decrypt
operation was invoked, in order — the latter two fields instrument the
run for the temporal properties. -/
structure Run where
  result : Except BreakError Outcome
  results : List Candidate
  invoked : List String

/-- `this.thresholds.confidenceThreshold`. -/
def confidenceThreshold : ℚ := 9/10

/-- The Caesar candidate pushed onto `results`. -/
def mkCaesarCandidate (B : Breaker) (cr : CaesarResult) : Candidate :=
  let validation := validateText B cr.text
  { method := "Caesar", key := toString cr.shift, decrypted := cr.text,
    rawScore := cr.score, confidence := validation.confidence,
    validWords := validation.validWords, totalWords := validation.totalWords,
    invalidWords := validation.invalidWords }

/-- The early-exit outcome of the Caesar step. -/
def caesarEarlyOutcome (B : Breaker) (cr : CaesarResult) : Outcome :=
  let validation := validateText B cr.text
  { success := true, method := "Caesar", decrypted := cr.text,
    confidence := validation.confidence, key := toString cr.shift,
    params := Params.shift cr.shift,
    details := ⟨validation.validWords, validation.totalWords,
      validation.invalidWords, some validation.confidence⟩ }

/-- ATTEMPT 1 of `breakCipher`: given what `breakCaesar` produced,
the candidates pushed and the early-exit outcome, if any. -/
def attemptCaesar (B : Breaker) (r : Option CaesarResult) :
    List Candidate × Option Outcome :=
  match r with
  | none => ([], none)
  | some cr =>
    if cr.text = "" then ([], none)
    else
      let c := mkCaesarCandidate B cr
      if confidenceThreshold ≤ c.confidence then ([c], some (caesarEarlyOutcome B cr))
      else ([c], none)

/-- The Rail Fence candidate pushed onto `results`. -/
def mkRailFenceCandidate (B : Breaker) (rr : RailFenceResult) : Candidate :=
  let validation := validateText B rr.text
  { method := "Rail Fence", key := toString rr.rails, decrypted := rr.text,
    rawScore := rr.score, confidence := validation.confidence,
    validWords := validation.validWords, totalWords := validation.totalWords,
    invalidWords := validation.invalidWords }

/-- The early-exit outcome of the Rail Fence step. -/
def railFenceEarlyOutcome (B : Breaker) (rr : RailFenceResult) : Outcome :=
  let validation := validateText B rr.text
  { success := true, method := "Rail Fence", decrypted := rr.text,
    confidence := validation.confidence, key := toString rr.rails,
    params := Params.rails rr.rails,
    details := ⟨validation.validWords, validation.totalWords,
      validation.invalidWords, some validation.confidence⟩ }

/-- ATTEMPT 2 of `breakCipher`. -/
def attemptRailFence (B : Breaker) (r : Option RailFenceResult) :
    List Candidate × Option Outcome :=
  match r with
  | none => ([], none)
  | some rr =>
    if rr.text = "" then ([], none)
    else
      let c := mkRailFenceCandidate B rr
      if confidenceThreshold ≤ c.confidence then ([c], some (railFenceEarlyOutcome B rr))
      else ([c], none)

/-- The validation used in the Vigenère step: the collaborator's own
percentage converted to a fraction (with word counts reconstructed
from `decrypted.split(/\s+/).length`) when supplied, otherwise
`validateText` on the decrypted text. -/
def vigenereValidationReport (B : Breaker) (vr : VigenereResult) : ValidationReport :=
  match vr.validation with
  | some v =>
      { confidence := v.percentage / 100,
        validWords := jsRound (v.percentage * (1/100) *
          ((jsSplitWhitespace vr.decrypted).length : ℚ)),
        totalWords := (jsSplitWhitespace vr.decrypted).length,
        invalidWords := v.invalidWords.getD [] }
  | none => validateText B vr.decrypted

/-- The Vigenère candidate pushed onto `results`. -/
def mkVigenereCandidate (B : Breaker) (vr : VigenereResult) : Candidate :=
  let validation := vigenereValidationReport B vr
  { method := "Vigenère", key := vr.key, decrypted := vr.decrypted,
    rawScore := vr.score, confidence := validation.confidence,
    validWords := validation.validWords, totalWords := validation.totalWords,
    invalidWords := validation.invalidWords }

/-- The early-exit outcome of the Vigenère step. -/
def vigenereEarlyOutcome (B : Breaker) (vr : VigenereResult) : Outcome :=
  let validation := vigenereValidationReport B vr
  { success := true, method := "Vigenère", decrypted := vr.decrypted,
    confidence := validation.confidence, key := vr.key,
    params := Params.key vr.key,
    details := ⟨validation.validWords, validation.totalWords,
      validation.invalidWords, some validation.confidence⟩ }

/-- ATTEMPT 3 of `breakCipher`. -/
def attemptVigenere (B : Breaker) (r : Option VigenereResult) :
    List Candidate × Option Outcome :=
  match r with
  | none => ([], none)
  | some vr =>
    if vr.decrypted = "" then ([], none)
    else
      let c := mkVigenereCandidate B vr
      if confidenceThreshold ≤ c.confidence then ([c], some (vigenereEarlyOutcome B vr))
      else ([c], none)

/-- Stable insertion of a candidate into a confidence-descending list:
the new (originally later) candidate goes after every candidate of
strictly greater confidence and after none of smaller-or-equal
confidence it precedes — wait, it goes before the first candidate of
confidence ≤ its own, so ties keep the earlier-pushed candidate first. -/
def insertByConf (c : Candidate) : List Candidate → List Candidate
  | [] => [c]
  | d :: ds => if d.confidence ≤ c.confidence then c :: d :: ds else d :: insertByConf c ds

/-- `results.sort((a, b) => b.confidence - a.confidence)`: a stable
sort by confidence descending (JS `Array.prototype.sort` is stable). -/
def sortByConfDesc : List Candidate → List Candidate
  | [] => []
  | c :: cs => insertByConf c (sortByConfDesc cs)

/-- The fallback outcome built from `results[0]` after sorting. -/
def fallbackOutcome (best : Candidate) : Outcome :=
  { success := false, method := best.method, decrypted := best.decrypted,
    confidence := best.confidence, key := best.key,
    params := if best.method = "Caesar" then Params.shift (jsParseInt best.key)
      else if best.method = "Rail Fence" then Params.rails (jsParseInt best.key)
      else Params.key best.key,
    details := ⟨best.validWords, best.totalWords, best.invalidWords, none⟩ }

/-- `UniversalCipherBreaker.breakCipher(ciphertext)`: the input guard,
the three-step cascade with per-step early exit at
`confidenceThreshold`, the exhaustion throw, and the sorted fallback. -/
def breakCipher (B : Breaker) (S : Strategies) (input : JSInput) : Run :=
  match input with
  | JSInput.nonString => ⟨Except.error BreakError.inputError, [], []⟩
  | JSInput.str ciphertext =>
    if ciphertext = "" then ⟨Except.error BreakError.inputError, [], []⟩
    else
      match attemptCaesar B (S.breakCaesar ciphertext) with
      | (cs, some o) => ⟨Except.ok o, cs, ["Caesar"]⟩
      | (cs, none) =>
        match attemptRailFence B (S.breakRailFence ciphertext) with
        | (rs, some o) => ⟨Except.ok o, cs ++ rs, ["Caesar", "Rail Fence"]⟩
        | (rs, none) =>
          match attemptVigenere B (S.breakVigenere ciphertext) with
          | (vs, some o) =>
              ⟨Except.ok o, cs ++ rs ++ vs, ["Caesar", "Rail Fence", "Vigenère"]⟩
          | (vs, none) =>
            let results := cs ++ rs ++ vs
            if results.length = 0 then
              ⟨Except.error BreakError.exhaustionError, results,
                ["Caesar", "Rail Fence", "Vigenère"]⟩
            else
              ⟨Except.ok (fallbackOutcome (sortByConfDesc results).headI), results,
                ["Caesar", "Rail Fence", "Vigenère"]⟩

/-- The fixed cascade order. -/
def cascadeOrder : List String := ["Caesar", "Rail Fence", "Vigenère"]

/-- The spec's characterization of the fallback ranking, written from
the spec's words rather than the source: the earliest-collected
candidate of maximal confidence (ties resolve to the earlier one). To
be compared with the head of `sortByConfDesc`. -/
def specFirstMax : List Candidate → Option Candidate
  | [] => none
  | c :: cs =>
    match specFirstMax cs with
    | none => some c
    | some d => if c.confidence < d.confidence then some d else some c

/-- Decidable equality of run results, for evaluating concrete runs. -/
instance : DecidableEq (Except BreakError Outcome) := fun a b =>
  match a, b with
  | Except.ok x, Except.ok y =>
      if h : x = y then isTrue (by rw [h]) else isFalse (by simp [h])
  | Except.error x, Except.error y =>
      if h : x = y then isTrue (by rw [h]) else isFalse (by simp [h])
  | Except.ok _, Except.error _ => isFalse (by simp)
  | Except.error _, Except.ok _ => isFalse (by simp)

/-- A concrete breaker instance (dictionary loaded with a few words)
used to exercise the theorems on closed inputs. -/
def sampleBreaker : Breaker := ⟨some ["hello", "world"], [], []⟩

/-- Concrete strategies: Caesar decrypts to a fully-valid text. -/
def sampleCaesarHit : Strategies :=
  ⟨fun _ => some ⟨3, "hello world", 100⟩, fun _ => none, fun _ => none⟩

/-- Concrete strategies: every collaborator fails. -/
def sampleAllFail : Strategies :=
  ⟨fun _ => none, fun _ => none, fun _ => none⟩

/-- Concrete strategies: Caesar and Vigenère produce below-threshold
candidates (no early exit), driving the fallback ranking. -/
def sampleFallback : Strategies :=
  ⟨fun _ => some ⟨1, "zzz qqq", 5⟩, fun _ => none,
   fun _ => some ⟨"KEY", "hello zzz", 10, none⟩⟩

/-- Concrete strategies: Vigenère supplies its own validation
percentage. -/
def sampleVigenerePct : Strategies :=
  ⟨fun _ => none, fun _ => none,
   fun _ => some ⟨"KEY", "abc def", 10, some ⟨50, some ["DEF"]⟩⟩⟩

theorem prepWords_empty : prepWords "" = [] := by decide

theorem validateText_foldl (dict : List String) :
    ∀ (ws : List String) (n : ℤ) (acc : List String),
      ws.foldl (fun (a : ℤ × List String) (w : String) =>
          if dict.contains w then (a.1 + 1, a.2) else (a.1, a.2 ++ [w])) (n, acc) =
        (n + (ws.countP (fun w => dict.contains w) : ℤ),
         acc ++ ws.filter (fun w => !dict.contains w)) := by
  intro ws
  induction ws with
  | nil => intro n acc; simp
  | cons w ws ih =>
    intro n acc
    by_cases h : dict.contains w
    · simp only [List.foldl_cons, h, List.countP_cons, List.filter_cons, ih, Bool.not_true,
        eq_self_iff_true, if_true, Bool.false_eq_true, if_false]
      refine Prod.ext ?_ rfl
      simp only
      push_cast
      ring
    · simp only [List.foldl_cons, List.countP_cons, List.filter_cons, ih, Bool.not_eq_true] at h ⊢
      simp only [h, Bool.not_false, if_true, Bool.false_eq_true, if_false]
      refine Prod.ext ?_ ?_
      · simp only
        push_cast
        ring
      · simp [List.append_assoc]

theorem validateText_eq (B : Breaker) (t : String) :
    validateText B t =
      if prepWords t = [] then ⟨0, 0, 0, []⟩
      else
        ⟨(((prepWords t).countP
              (fun w => (effectiveDictionary B).contains w) : ℚ)) / ((prepWords t).length : ℚ),
          ((prepWords t).countP (fun w => (effectiveDictionary B).contains w) : ℤ),
          (prepWords t).length,
          (prepWords t).filter (fun w => !(effectiveDictionary B).contains w)⟩ := by
  by_cases ht : t = ""
  · subst ht; simp [validateText, prepWords_empty]
  · rw [validateText]
    simp only [ht, if_false]
    by_cases hw : prepWords t = []
    · simp [hw]
    · have hlen : ¬ (prepWords t).length = 0 := by simpa using hw
      simp only [hw, hlen, if_false, validateText_foldl (effectiveDictionary B) (prepWords t) 0 []]
      simp

theorem validateText_confidence_nonneg (B : Breaker) (t : String) :
    0 ≤ (validateText B t).confidence := by
  rw [validateText_eq]
  split
  · simp
  · simp only
    positivity

theorem validateText_confidence_le_one (B : Breaker) (t : String) :
    (validateText B t).confidence ≤ 1 := by
  rw [validateText_eq]
  split
  · norm_num
  · rename_i hw
    simp only
    have hlen : 0 < (prepWords t).length := List.length_pos.mpr hw
    have hle : ((prepWords t).countP (fun w => (effectiveDictionary B).contains w))
        ≤ (prepWords t).length := List.countP_le_length _
    rw [div_le_one (by exact_mod_cast hlen)]
    exact_mod_cast hle

theorem mkCaesarCandidate_method (B : Breaker) (cr : CaesarResult) :
    (mkCaesarCandidate B cr).method = "Caesar" := rfl

theorem mkCaesarCandidate_confidence (B : Breaker) (cr : CaesarResult) :
    (mkCaesarCandidate B cr).confidence = (validateText B cr.text).confidence := rfl

theorem mkRailFenceCandidate_method (B : Breaker) (rr : RailFenceResult) :
    (mkRailFenceCandidate B rr).method = "Rail Fence" := rfl

theorem mkRailFenceCandidate_confidence (B : Breaker) (rr : RailFenceResult) :
    (mkRailFenceCandidate B rr).confidence = (validateText B rr.text).confidence := rfl

theorem mkVigenereCandidate_method (B : Breaker) (vr : VigenereResult) :
    (mkVigenereCandidate B vr).method = "Vigenère" := rfl

theorem mkVigenereCandidate_confidence (B : Breaker) (vr : VigenereResult) :
    (mkVigenereCandidate B vr).confidence = (vigenereValidationReport B vr).confidence := rfl

theorem caesarEarlyOutcome_eq (B : Breaker) (cr : CaesarResult) :
    (caesarEarlyOutcome B cr).success = true ∧
    (caesarEarlyOutcome B cr).method = (mkCaesarCandidate B cr).method ∧
    (caesarEarlyOutcome B cr).confidence = (mkCaesarCandidate B cr).confidence :=
  ⟨rfl, rfl, rfl⟩

theorem railFenceEarlyOutcome_eq (B : Breaker) (rr : RailFenceResult) :
    (railFenceEarlyOutcome B rr).success = true ∧
    (railFenceEarlyOutcome B rr).method = (mkRailFenceCandidate B rr).method ∧
    (railFenceEarlyOutcome B rr).confidence = (mkRailFenceCandidate B rr).confidence :=
  ⟨rfl, rfl, rfl⟩

theorem vigenereEarlyOutcome_eq (B : Breaker) (vr : VigenereResult) :
    (vigenereEarlyOutcome B vr).success = true ∧
    (vigenereEarlyOutcome B vr).method = (mkVigenereCandidate B vr).method ∧
    (vigenereEarlyOutcome B vr).confidence = (mkVigenereCandidate B vr).confidence :=
  ⟨rfl, rfl, rfl⟩

theorem attemptCaesar_spec (B : Breaker) (r : Option CaesarResult) :
    attemptCaesar B r = ([], none) ∨
    (∃ cr, r = some cr ∧ cr.text ≠ "" ∧
      ((¬ confidenceThreshold ≤ (mkCaesarCandidate B cr).confidence ∧
          attemptCaesar B r = ([mkCaesarCandidate B cr], none)) ∨
       (confidenceThreshold ≤ (mkCaesarCandidate B cr).confidence ∧
          attemptCaesar B r = ([mkCaesarCandidate B cr], some (caesarEarlyOutcome B cr))))) := by
  match r with
  | none => exact Or.inl rfl
  | some cr =>
    by_cases ht : cr.text = ""
    · exact Or.inl (by simp [attemptCaesar, ht])
    · by_cases hc : confidenceThreshold ≤ (mkCaesarCandidate B cr).confidence
      · exact Or.inr ⟨cr, rfl, ht, Or.inr ⟨hc, by simp [attemptCaesar, ht, hc]⟩⟩
      · exact Or.inr ⟨cr, rfl, ht, Or.inl ⟨hc, by simp [attemptCaesar, ht, hc]⟩⟩

theorem attemptRailFence_spec (B : Breaker) (r : Option RailFenceResult) :
    attemptRailFence B r = ([], none) ∨
    (∃ rr, r = some rr ∧ rr.text ≠ "" ∧
      ((¬ confidenceThreshold ≤ (mkRailFenceCandidate B rr).confidence ∧
          attemptRailFence B r = ([mkRailFenceCandidate B rr], none)) ∨
       (confidenceThreshold ≤ (mkRailFenceCandidate B rr).confidence ∧
          attemptRailFence B r = ([mkRailFenceCandidate B rr], some (railFenceEarlyOutcome B rr))))) := by
  match r with
  | none => exact Or.inl rfl
  | some rr =>
    by_cases ht : rr.text = ""
    · exact Or.inl (by simp [attemptRailFence, ht])
    · by_cases hc : confidenceThreshold ≤ (mkRailFenceCandidate B rr).confidence
      · exact Or.inr ⟨rr, rfl, ht, Or.inr ⟨hc, by simp [attemptRailFence, ht, hc]⟩⟩
      · exact Or.inr ⟨rr, rfl, ht, Or.inl ⟨hc, by simp [attemptRailFence, ht, hc]⟩⟩

theorem attemptVigenere_spec (B : Breaker) (r : Option VigenereResult) :
    attemptVigenere B r = ([], none) ∨
    (∃ vr, r = some vr ∧ vr.decrypted ≠ "" ∧
      ((¬ confidenceThreshold ≤ (mkVigenereCandidate B vr).confidence ∧
          attemptVigenere B r = ([mkVigenereCandidate B vr], none)) ∨
       (confidenceThreshold ≤ (mkVigenereCandidate B vr).confidence ∧
          attemptVigenere B r = ([mkVigenereCandidate B vr], some (vigenereEarlyOutcome B vr))))) := by
  match r with
  | none => exact Or.inl rfl
  | some vr =>
    by_cases ht : vr.decrypted = ""
    · exact Or.inl (by simp [attemptVigenere, ht])
    · by_cases hc : confidenceThreshold ≤ (mkVigenereCandidate B vr).confidence
      · exact Or.inr ⟨vr, rfl, ht, Or.inr ⟨hc, by simp [attemptVigenere, ht, hc]⟩⟩
      · exact Or.inr ⟨vr, rfl, ht, Or.inl ⟨hc, by simp [attemptVigenere, ht, hc]⟩⟩

theorem specFirstMax_eq_none (l : List Candidate) : specFirstMax l = none ↔ l = [] := by
  match l with
  | [] => simp [specFirstMax]
  | c :: cs =>
    simp only [specFirstMax]
    constructor
    · intro h
      exfalso
      match hm : specFirstMax cs with
      | none => rw [hm] at h; exact Option.some_ne_none c h
      | some d =>
        rw [hm] at h
        have h' : (if c.confidence < d.confidence then some d else some c) = none := h
        by_cases hc : c.confidence < d.confidence
        · rw [if_pos hc] at h'; exact Option.some_ne_none d h'
        · rw [if_neg hc] at h'; exact Option.some_ne_none c h'
    · intro h; exact absurd h (List.cons_ne_nil c cs)

theorem sortByConfDesc_head (c : Candidate) (cs : List Candidate) :
    ∃ b rest, sortByConfDesc (c :: cs) = b :: rest ∧ specFirstMax (c :: cs) = some b := by
  induction cs generalizing c with
  | nil => exact ⟨c, [], rfl, rfl⟩
  | cons d ds ih =>
    obtain ⟨b, rest, hsort, hmax⟩ := ih d
    by_cases hbc : b.confidence ≤ c.confidence
    · refine ⟨c, b :: rest, ?_, ?_⟩
      · show insertByConf c (sortByConfDesc (d :: ds)) = c :: b :: rest
        rw [hsort, insertByConf, if_pos hbc]
      · show (match specFirstMax (d :: ds) with
            | none => some c
            | some e => if c.confidence < e.confidence then some e else some c) = some c
        rw [hmax]
        simp only [if_neg (not_lt.mpr hbc)]
    · refine ⟨b, insertByConf c rest, ?_, ?_⟩
      · show insertByConf c (sortByConfDesc (d :: ds)) = b :: insertByConf c rest
        rw [hsort, insertByConf, if_neg hbc]
      · show (match specFirstMax (d :: ds) with
            | none => some c
            | some e => if c.confidence < e.confidence then some e else some c) = some b
        rw [hmax]
        simp only [if_pos (not_le.mp hbc)]

theorem specFirstMax_spec (l : List Candidate) :
    ∀ b, specFirstMax l = some b →
      (∀ c ∈ l, c.confidence ≤ b.confidence) ∧
      ∃ pre post, l = pre ++ b :: post ∧ ∀ c ∈ pre, c.confidence < b.confidence := by
  induction l with
  | nil => intro b h; exact absurd h (by simp [specFirstMax])
  | cons c cs ih =>
    intro b h
    match hm : specFirstMax cs with
    | none =>
      have hcs : cs = [] := (specFirstMax_eq_none cs).mp hm
      subst hcs
      have hb : b = c := by
        rw [specFirstMax, hm] at h
        exact (Option.some_inj.mp h).symm
      subst hb
      exact ⟨by simp, [], [], rfl, by simp⟩
    | some d =>
      rw [specFirstMax, hm] at h
      have h' : (if c.confidence < d.confidence then some d else some c) = some b := h
      by_cases hc : c.confidence < d.confidence
      · rw [if_pos hc] at h'
        have hb : b = d := Option.some_inj.mp h'.symm
        subst hb
        obtain ⟨hle, pre, post, hdecomp, hpre⟩ := ih b hm
        refine ⟨?_, c :: pre, post, by rw [hdecomp]; rfl, ?_⟩
        · intro x hx
          rcases List.mem_cons.mp hx with hx | hx
          · subst hx; exact le_of_lt hc
          · exact hle x hx
        · intro x hx
          rcases List.mem_cons.mp hx with hx | hx
          · subst hx; exact hc
          · exact hpre x hx
      · rw [if_neg hc] at h'
        have hb : b = c := Option.some_inj.mp h'.symm
        subst hb
        obtain ⟨hle, _, _, _, _⟩ := ih d hm
        refine ⟨?_, [], cs, rfl, by simp⟩
        intro x hx
        rcases List.mem_cons.mp hx with hx | hx
        · subst hx; exact le_refl _
        · exact le_trans (hle x hx) (not_lt.mp hc)

theorem breakCipher_str (B : Breaker) (S : Strategies) (ct : String) (h : ¬ ct = "") :
    breakCipher B S (JSInput.str ct) =
      (match attemptCaesar B (S.breakCaesar ct) with
      | (cs, some o) => ⟨Except.ok o, cs, ["Caesar"]⟩
      | (cs, none) =>
        match attemptRailFence B (S.breakRailFence ct) with
        | (rs, some o) => ⟨Except.ok o, cs ++ rs, ["Caesar", "Rail Fence"]⟩
        | (rs, none) =>
          match attemptVigenere B (S.breakVigenere ct) with
          | (vs, some o) =>
              ⟨Except.ok o, cs ++ rs ++ vs, ["Caesar", "Rail Fence", "Vigenère"]⟩
          | (vs, none) =>
            let results := cs ++ rs ++ vs
            if results.length = 0 then
              ⟨Except.error BreakError.exhaustionError, results,
                ["Caesar", "Rail Fence", "Vigenère"]⟩
            else
              ⟨Except.ok (fallbackOutcome (sortByConfDesc results).headI), results,
                ["Caesar", "Rail Fence", "Vigenère"]⟩) := by
  rw [breakCipher]
  rw [if_neg h]


/-- C1: during `breakCipher` the strategies are attempted in the fixed
order Caesar, Rail Fence, Vigenère — the invoked list is always a
non-empty initial segment of that order — and whenever a recorded
candidate's confidence is at least the 0.9 `confidenceThreshold`, the
run returns immediately with `success := true` at that candidate's
strategy: that candidate is the last one recorded, its strategy is the
last one invoked, and no subsequent strategy is invoked. -/
theorem breakCipher_cascade_order_early_exit
    (B : Breaker) (S : Strategies) (ct : String) (hct : ct ≠ "") :
    (∃ k, 1 ≤ k ∧ k ≤ 3 ∧
      (breakCipher B S (JSInput.str ct)).invoked = cascadeOrder.take k) ∧
    (∀ c ∈ (breakCipher B S (JSInput.str ct)).results,
      confidenceThreshold ≤ c.confidence →
      ∃ o, (breakCipher B S (JSInput.str ct)).result = Except.ok o ∧
        o.success = true ∧ o.method = c.method ∧ o.confidence = c.confidence ∧
        (breakCipher B S (JSInput.str ct)).results.getLast? = some c ∧
        (breakCipher B S (JSInput.str ct)).invoked.getLast? = some c.method) := by
  rcases attemptCaesar_spec B (S.breakCaesar ct) with h1 | ⟨cr, -, -, ⟨hlt1, h1⟩ | ⟨hge1, h1⟩⟩
  · -- Caesar produced nothing
    rcases attemptRailFence_spec B (S.breakRailFence ct) with
        h2 | ⟨rr, -, -, ⟨hlt2, h2⟩ | ⟨hge2, h2⟩⟩
    · -- Rail Fence produced nothing
      rcases attemptVigenere_spec B (S.breakVigenere ct) with
          h3 | ⟨vr, -, -, ⟨hlt3, h3⟩ | ⟨hge3, h3⟩⟩
      · -- Vigenère produced nothing
        have hres : (breakCipher B S (JSInput.str ct)).results = [] := by
          rw [breakCipher_str B S ct hct, h1, h2, h3] <;> rfl
        have hinv : (breakCipher B S (JSInput.str ct)).invoked = ["Caesar", "Rail Fence", "Vigenère"] := by
          rw [breakCipher_str B S ct hct, h1, h2, h3] <;> rfl
        refine ⟨⟨3, by norm_num, by norm_num, by rw [hinv] <;> rfl⟩, ?_⟩
        intro c hc hconf
        rw [hres] at hc
        exact absurd hc (List.not_mem_nil c)
      · -- Vigenère produced a below-threshold candidate
        have hres : (breakCipher B S (JSInput.str ct)).results = [mkVigenereCandidate B vr] := by
          rw [breakCipher_str B S ct hct, h1, h2, h3] <;> rfl
        have hinv : (breakCipher B S (JSInput.str ct)).invoked = ["Caesar", "Rail Fence", "Vigenère"] := by
          rw [breakCipher_str B S ct hct, h1, h2, h3] <;> rfl
        refine ⟨⟨3, by norm_num, by norm_num, by rw [hinv] <;> rfl⟩, ?_⟩
        intro c hc hconf
        rw [hres] at hc
        simp only [List.mem_singleton] at hc
        subst hc
        exact absurd hconf hlt3
      · -- Vigenère met the threshold: early exit
        have hresu : (breakCipher B S (JSInput.str ct)).result = Except.ok (vigenereEarlyOutcome B vr) := by
          rw [breakCipher_str B S ct hct, h1, h2, h3] <;> rfl
        have hres : (breakCipher B S (JSInput.str ct)).results = [mkVigenereCandidate B vr] := by
          rw [breakCipher_str B S ct hct, h1, h2, h3] <;> rfl
        have hinv : (breakCipher B S (JSInput.str ct)).invoked = ["Caesar", "Rail Fence", "Vigenère"] := by
          rw [breakCipher_str B S ct hct, h1, h2, h3] <;> rfl
        refine ⟨⟨3, by norm_num, by norm_num, by rw [hinv] <;> rfl⟩, ?_⟩
        intro c hc hconf
        rw [hres] at hc
        simp only [List.mem_singleton] at hc
        subst hc
        exact ⟨vigenereEarlyOutcome B vr, hresu, rfl, rfl, rfl, by rw [hres] <;> rfl, by rw [hinv] <;> rfl⟩
    · -- Rail Fence produced a below-threshold candidate
      rcases attemptVigenere_spec B (S.breakVigenere ct) with
          h3 | ⟨vr, -, -, ⟨hlt3, h3⟩ | ⟨hge3, h3⟩⟩
      · -- Vigenère produced nothing
        have hres : (breakCipher B S (JSInput.str ct)).results = [mkRailFenceCandidate B rr] := by
          rw [breakCipher_str B S ct hct, h1, h2, h3] <;> rfl
        have hinv : (breakCipher B S (JSInput.str ct)).invoked = ["Caesar", "Rail Fence", "Vigenère"] := by
          rw [breakCipher_str B S ct hct, h1, h2, h3] <;> rfl
        refine ⟨⟨3, by norm_num, by norm_num, by rw [hinv] <;> rfl⟩, ?_⟩
        intro c hc hconf
        rw [hres] at hc
        simp only [List.mem_singleton] at hc
        subst hc
        exact absurd hconf hlt2
      · -- Vigenère produced a below-threshold candidate
        have hres : (breakCipher B S (JSInput.str ct)).results = [mkRailFenceCandidate B rr, mkVigenereCandidate B vr] := by
          rw [breakCipher_str B S ct hct, h1, h2, h3] <;> rfl
        have hinv : (breakCipher B S (JSInput.str ct)).invoked = ["Caesar", "Rail Fence", "Vigenère"] := by
          rw [breakCipher_str B S ct hct, h1, h2, h3] <;> rfl
        refine ⟨⟨3, by norm_num, by norm_num, by rw [hinv] <;> rfl⟩, ?_⟩
        intro c hc hconf
        rw [hres] at hc
        rcases List.mem_cons.mp hc with hc | hc
        · subst hc
          exact absurd hconf hlt2
        simp only [List.mem_singleton] at hc
        subst hc
        exact absurd hconf hlt3
      · -- Vigenère met the threshold: early exit
        have hresu : (breakCipher B S (JSInput.str ct)).result = Except.ok (vigenereEarlyOutcome B vr) := by
          rw [breakCipher_str B S ct hct, h1, h2, h3] <;> rfl
        have hres : (breakCipher B S (JSInput.str ct)).results = [mkRailFenceCandidate B rr, mkVigenereCandidate B vr] := by
          rw [breakCipher_str B S ct hct, h1, h2, h3] <;> rfl
        have hinv : (breakCipher B S (JSInput.str ct)).invoked = ["Caesar", "Rail Fence", "Vigenère"] := by
          rw [breakCipher_str B S ct hct, h1, h2, h3] <;> rfl
        refine ⟨⟨3, by norm_num, by norm_num, by rw [hinv] <;> rfl⟩, ?_⟩
        intro c hc hconf
        rw [hres] at hc
        rcases List.mem_cons.mp hc with hc | hc
        · subst hc
          exact absurd hconf hlt2
        simp only [List.mem_singleton] at hc
        subst hc
        exact ⟨vigenereEarlyOutcome B vr, hresu, rfl, rfl, rfl, by rw [hres] <;> rfl, by rw [hinv] <;> rfl⟩
    · -- Rail Fence met the threshold: early exit
      have hresu : (breakCipher B S (JSInput.str ct)).result = Except.ok (railFenceEarlyOutcome B rr) := by
        rw [breakCipher_str B S ct hct, h1, h2] <;> rfl
      have hres : (breakCipher B S (JSInput.str ct)).results = [mkRailFenceCandidate B rr] := by
        rw [breakCipher_str B S ct hct, h1, h2] <;> rfl
      have hinv : (breakCipher B S (JSInput.str ct)).invoked = ["Caesar", "Rail Fence"] := by
        rw [breakCipher_str B S ct hct, h1, h2] <;> rfl
      refine ⟨⟨2, by norm_num, by norm_num, by rw [hinv] <;> rfl⟩, ?_⟩
      intro c hc hconf
      rw [hres] at hc
      simp only [List.mem_singleton] at hc
      subst hc
      exact ⟨railFenceEarlyOutcome B rr, hresu, rfl, rfl, rfl, by rw [hres] <;> rfl, by rw [hinv] <;> rfl⟩
  · -- Caesar produced a below-threshold candidate
    rcases attemptRailFence_spec B (S.breakRailFence ct) with
        h2 | ⟨rr, -, -, ⟨hlt2, h2⟩ | ⟨hge2, h2⟩⟩
    · -- Rail Fence produced nothing
      rcases attemptVigenere_spec B (S.breakVigenere ct) with
          h3 | ⟨vr, -, -, ⟨hlt3, h3⟩ | ⟨hge3, h3⟩⟩
      · -- Vigenère produced nothing
        have hres : (breakCipher B S (JSInput.str ct)).results = [mkCaesarCandidate B cr] := by
          rw [breakCipher_str B S ct hct, h1, h2, h3] <;> rfl
        have hinv : (breakCipher B S (JSInput.str ct)).invoked = ["Caesar", "Rail Fence", "Vigenère"] := by
          rw [breakCipher_str B S ct hct, h1, h2, h3] <;> rfl
        refine ⟨⟨3, by norm_num, by norm_num, by rw [hinv] <;> rfl⟩, ?_⟩
        intro c hc hconf
        rw [hres] at hc
        simp only [List.mem_singleton] at hc
        subst hc
        exact absurd hconf hlt1
      · -- Vigenère produced a below-threshold candidate
        have hres : (breakCipher B S (JSInput.str ct)).results = [mkCaesarCandidate B cr, mkVigenereCandidate B vr] := by
          rw [breakCipher_str B S ct hct, h1, h2, h3] <;> rfl
        have hinv : (breakCipher B S (JSInput.str ct)).invoked = ["Caesar", "Rail Fence", "Vigenère"] := by
          rw [breakCipher_str B S ct hct, h1, h2, h3] <;> rfl
        refine ⟨⟨3, by norm_num, by norm_num, by rw [hinv] <;> rfl⟩, ?_⟩
        intro c hc hconf
        rw [hres] at hc
        rcases List.mem_cons.mp hc with hc | hc
        · subst hc
          exact absurd hconf hlt1
        simp only [List.mem_singleton] at hc
        subst hc
        exact absurd hconf hlt3
      · -- Vigenère met the threshold: early exit
        have hresu : (breakCipher B S (JSInput.str ct)).result = Except.ok (vigenereEarlyOutcome B vr) := by
          rw [breakCipher_str B S ct hct, h1, h2, h3] <;> rfl
        have hres : (breakCipher B S (JSInput.str ct)).results = [mkCaesarCandidate B cr, mkVigenereCandidate B vr] := by
          rw [breakCipher_str B S ct hct, h1, h2, h3] <;> rfl
        have hinv : (breakCipher B S (JSInput.str ct)).invoked = ["Caesar", "Rail Fence", "Vigenère"] := by
          rw [breakCipher_str B S ct hct, h1, h2, h3] <;> rfl
        refine ⟨⟨3, by norm_num, by norm_num, by rw [hinv] <;> rfl⟩, ?_⟩
        intro c hc hconf
        rw [hres] at hc
        rcases List.mem_cons.mp hc with hc | hc
        · subst hc
          exact absurd hconf hlt1
        simp only [List.mem_singleton] at hc
        subst hc
        exact ⟨vigenereEarlyOutcome B vr, hresu, rfl, rfl, rfl, by rw [hres] <;> rfl, by rw [hinv] <;> rfl⟩
    · -- Rail Fence produced a below-threshold candidate
      rcases attemptVigenere_spec B (S.breakVigenere ct) with
          h3 | ⟨vr, -, -, ⟨hlt3, h3⟩ | ⟨hge3, h3⟩⟩
      · -- Vigenère produced nothing
        have hres : (breakCipher B S (JSInput.str ct)).results = [mkCaesarCandidate B cr, mkRailFenceCandidate B rr] := by
          rw [breakCipher_str B S ct hct, h1, h2, h3] <;> rfl
        have hinv : (breakCipher B S (JSInput.str ct)).invoked = ["Caesar", "Rail Fence", "Vigenère"] := by
          rw [breakCipher_str B S ct hct, h1, h2, h3] <;> rfl
        refine ⟨⟨3, by norm_num, by norm_num, by rw [hinv] <;> rfl⟩, ?_⟩
        intro c hc hconf
        rw [hres] at hc
        rcases List.mem_cons.mp hc with hc | hc
        · subst hc
          exact absurd hconf hlt1
        simp only [List.mem_singleton] at hc
        subst hc
        exact absurd hconf hlt2
      · -- Vigenère produced a below-threshold candidate
        have hres : (breakCipher B S (JSInput.str ct)).results = [mkCaesarCandidate B cr, mkRailFenceCandidate B rr, mkVigenereCandidate B vr] := by
          rw [breakCipher_str B S ct hct, h1, h2, h3] <;> rfl
        have hinv : (breakCipher B S (JSInput.str ct)).invoked = ["Caesar", "Rail Fence", "Vigenère"] := by
          rw [breakCipher_str B S ct hct, h1, h2, h3] <;> rfl
        refine ⟨⟨3, by norm_num, by norm_num, by rw [hinv] <;> rfl⟩, ?_⟩
        intro c hc hconf
        rw [hres] at hc
        rcases List.mem_cons.mp hc with hc | hc
        · subst hc
          exact absurd hconf hlt1
        rcases List.mem_cons.mp hc with hc | hc
        · subst hc
          exact absurd hconf hlt2
        simp only [List.mem_singleton] at hc
        subst hc
        exact absurd hconf hlt3
      · -- Vigenère met the threshold: early exit
        have hresu : (breakCipher B S (JSInput.str ct)).result = Except.ok (vigenereEarlyOutcome B vr) := by
          rw [breakCipher_str B S ct hct, h1, h2, h3] <;> rfl
        have hres : (breakCipher B S (JSInput.str ct)).results = [mkCaesarCandidate B cr, mkRailFenceCandidate B rr, mkVigenereCandidate B vr] := by
          rw [breakCipher_str B S ct hct, h1, h2, h3] <;> rfl
        have hinv : (breakCipher B S (JSInput.str ct)).invoked = ["Caesar", "Rail Fence", "Vigenère"] := by
          rw [breakCipher_str B S ct hct, h1, h2, h3] <;> rfl
        refine ⟨⟨3, by norm_num, by norm_num, by rw [hinv] <;> rfl⟩, ?_⟩
        intro c hc hconf
        rw [hres] at hc
        rcases List.mem_cons.mp hc with hc | hc
        · subst hc
          exact absurd hconf hlt1
        rcases List.mem_cons.mp hc with hc | hc
        · subst hc
          exact absurd hconf hlt2
        simp only [List.mem_singleton] at hc
        subst hc
        exact ⟨vigenereEarlyOutcome B vr, hresu, rfl, rfl, rfl, by rw [hres] <;> rfl, by rw [hinv] <;> rfl⟩
    · -- Rail Fence met the threshold: early exit
      have hresu : (breakCipher B S (JSInput.str ct)).result = Except.ok (railFenceEarlyOutcome B rr) := by
        rw [breakCipher_str B S ct hct, h1, h2] <;> rfl
      have hres : (breakCipher B S (JSInput.str ct)).results = [mkCaesarCandidate B cr, mkRailFenceCandidate B rr] := by
        rw [breakCipher_str B S ct hct, h1, h2] <;> rfl
      have hinv : (breakCipher B S (JSInput.str ct)).invoked = ["Caesar", "Rail Fence"] := by
        rw [breakCipher_str B S ct hct, h1, h2] <;> rfl
      refine ⟨⟨2, by norm_num, by norm_num, by rw [hinv] <;> rfl⟩, ?_⟩
      intro c hc hconf
      rw [hres] at hc
      rcases List.mem_cons.mp hc with hc | hc
      · subst hc
        exact absurd hconf hlt1
      simp only [List.mem_singleton] at hc
      subst hc
      exact ⟨railFenceEarlyOutcome B rr, hresu, rfl, rfl, rfl, by rw [hres] <;> rfl, by rw [hinv] <;> rfl⟩
  · -- Caesar met the threshold: early exit
    have hresu : (breakCipher B S (JSInput.str ct)).result = Except.ok (caesarEarlyOutcome B cr) := by
      rw [breakCipher_str B S ct hct, h1] <;> rfl
    have hres : (breakCipher B S (JSInput.str ct)).results = [mkCaesarCandidate B cr] := by
      rw [breakCipher_str B S ct hct, h1] <;> rfl
    have hinv : (breakCipher B S (JSInput.str ct)).invoked = ["Caesar"] := by
      rw [breakCipher_str B S ct hct, h1] <;> rfl
    refine ⟨⟨1, by norm_num, by norm_num, by rw [hinv] <;> rfl⟩, ?_⟩
    intro c hc hconf
    rw [hres] at hc
    simp only [List.mem_singleton] at hc
    subst hc
    exact ⟨caesarEarlyOutcome B cr, hresu, rfl, rfl, rfl, by rw [hres] <;> rfl, by rw [hinv] <;> rfl⟩

theorem vigenereValidationReport_confidence_bounds (B : Breaker) (vr : VigenereResult)
    (h : ∀ v, vr.validation = some v → 0 ≤ v.percentage ∧ v.percentage ≤ 100) :
    0 ≤ (vigenereValidationReport B vr).confidence ∧
      (vigenereValidationReport B vr).confidence ≤ 1 := by
  match hv : vr.validation with
  | some v =>
    obtain ⟨h0, h100⟩ := h v hv
    rw [vigenereValidationReport, hv]
    constructor
    · positivity
    · rw [div_le_one (by norm_num)]
      exact h100
  | none =>
    rw [vigenereValidationReport, hv]
    exact ⟨validateText_confidence_nonneg B vr.decrypted, validateText_confidence_le_one B vr.decrypted⟩

theorem mkCaesarCandidate_confidence_bounds (B : Breaker) (cr : CaesarResult) :
    0 ≤ (mkCaesarCandidate B cr).confidence ∧ (mkCaesarCandidate B cr).confidence ≤ 1 := by
  rw [mkCaesarCandidate_confidence]
  exact ⟨validateText_confidence_nonneg B cr.text, validateText_confidence_le_one B cr.text⟩

theorem mkRailFenceCandidate_confidence_bounds (B : Breaker) (rr : RailFenceResult) :
    0 ≤ (mkRailFenceCandidate B rr).confidence ∧ (mkRailFenceCandidate B rr).confidence ≤ 1 := by
  rw [mkRailFenceCandidate_confidence]
  exact ⟨validateText_confidence_nonneg B rr.text, validateText_confidence_le_one B rr.text⟩

theorem mkVigenereCandidate_confidence_bounds (B : Breaker) (vr : VigenereResult)
    (h : ∀ v, vr.validation = some v → 0 ≤ v.percentage ∧ v.percentage ≤ 100) :
    0 ≤ (mkVigenereCandidate B vr).confidence ∧ (mkVigenereCandidate B vr).confidence ≤ 1 := by
  rw [mkVigenereCandidate_confidence]
  exact vigenereValidationReport_confidence_bounds B vr h

theorem sortByConfDesc_headI_mem (c : Candidate) (cs : List Candidate) :
    (sortByConfDesc (c :: cs)).headI ∈ c :: cs := by
  obtain ⟨b, rest, hsort, hmax⟩ := sortByConfDesc_head c cs
  rw [hsort]
  obtain ⟨-, pre, post, hdecomp, -⟩ := specFirstMax_spec (c :: cs) b hmax
  rw [hdecomp]
  exact List.mem_append.mpr (Or.inr (List.mem_cons_self b post))

/-- C6 (amended): past the input guard (non-empty string ciphertext),
`breakCipher` throws exactly when zero candidates were collected across
all three strategies — the ExhaustionError — and that is the only error
it can throw from that point on (the InputError is raised earlier, for
empty or non-string ciphertext, before any strategy runs). -/
theorem breakCipher_exhaustion_only_raise
    (B : Breaker) (S : Strategies) (ct : String) (hct : ct ≠ "") :
    ((breakCipher B S (JSInput.str ct)).result = Except.error BreakError.exhaustionError ↔
      (breakCipher B S (JSInput.str ct)).results = []) ∧
    (∀ e, (breakCipher B S (JSInput.str ct)).result = Except.error e →
      e = BreakError.exhaustionError) := by
  rcases attemptCaesar_spec B (S.breakCaesar ct) with
      h1 | ⟨cr, hcr, hcrt, ⟨hlt1, h1⟩ | ⟨hge1, h1⟩⟩
  ·
    rcases attemptRailFence_spec B (S.breakRailFence ct) with
        h2 | ⟨rr, hrr, hrrt, ⟨hlt2, h2⟩ | ⟨hge2, h2⟩⟩
    ·
      rcases attemptVigenere_spec B (S.breakVigenere ct) with
          h3 | ⟨vr, hvr, hvrt, ⟨hlt3, h3⟩ | ⟨hge3, h3⟩⟩
      ·
        have hresu : (breakCipher B S (JSInput.str ct)).result = Except.error BreakError.exhaustionError := by
          rw [breakCipher_str B S ct hct, h1, h2, h3] <;> rfl
        have hres : (breakCipher B S (JSInput.str ct)).results = [] := by
          rw [breakCipher_str B S ct hct, h1, h2, h3] <;> rfl
        refine ⟨by rw [hresu, hres]; simp, ?_⟩
        intro e he
        rw [hresu] at he
        injection he with hh
        exact hh.symm
      ·
        have hresu : (breakCipher B S (JSInput.str ct)).result = Except.ok (fallbackOutcome ((sortByConfDesc [mkVigenereCandidate B vr]).headI)) := by
          rw [breakCipher_str B S ct hct, h1, h2, h3] <;> rfl
        have hres : (breakCipher B S (JSInput.str ct)).results = [mkVigenereCandidate B vr] := by
          rw [breakCipher_str B S ct hct, h1, h2, h3] <;> rfl
        refine ⟨by rw [hresu, hres]; simp, ?_⟩
        intro e he
        rw [hresu] at he
        exact absurd he (by simp)
      ·
        have hresu : (breakCipher B S (JSInput.str ct)).result = Except.ok (vigenereEarlyOutcome B vr) := by
          rw [breakCipher_str B S ct hct, h1, h2, h3] <;> rfl
        have hres : (breakCipher B S (JSInput.str ct)).results = [mkVigenereCandidate B vr] := by
          rw [breakCipher_str B S ct hct, h1, h2, h3] <;> rfl
        refine ⟨by rw [hresu, hres]; simp, ?_⟩
        intro e he
        rw [hresu] at he
        exact absurd he (by simp)
    ·
      rcases attemptVigenere_spec B (S.breakVigenere ct) with
          h3 | ⟨vr, hvr, hvrt, ⟨hlt3, h3⟩ | ⟨hge3, h3⟩⟩
      ·
        have hresu : (breakCipher B S (JSInput.str ct)).result = Except.ok (fallbackOutcome ((sortByConfDesc [mkRailFenceCandidate B rr]).headI)) := by
          rw [breakCipher_str B S ct hct, h1, h2, h3] <;> rfl
        have hres : (breakCipher B S (JSInput.str ct)).results = [mkRailFenceCandidate B rr] := by
          rw [breakCipher_str B S ct hct, h1, h2, h3] <;> rfl
        refine ⟨by rw [hresu, hres]; simp, ?_⟩
        intro e he
        rw [hresu] at he
        exact absurd he (by simp)
      ·
        have hresu : (breakCipher B S (JSInput.str ct)).result = Except.ok (fallbackOutcome ((sortByConfDesc [mkRailFenceCandidate B rr, mkVigenereCandidate B vr]).headI)) := by
          rw [breakCipher_str B S ct hct, h1, h2, h3] <;> rfl
        have hres : (breakCipher B S (JSInput.str ct)).results = [mkRailFenceCandidate B rr, mkVigenereCandidate B vr] := by
          rw [breakCipher_str B S ct hct, h1, h2, h3] <;> rfl
        refine ⟨by rw [hresu, hres]; simp, ?_⟩
        intro e he
        rw [hresu] at he
        exact absurd he (by simp)
      ·
        have hresu : (breakCipher B S (JSInput.str ct)).result = Except.ok (vigenereEarlyOutcome B vr) := by
          rw [breakCipher_str B S ct hct, h1, h2, h3] <;> rfl
        have hres : (breakCipher B S (JSInput.str ct)).results = [mkRailFenceCandidate B rr, mkVigenereCandidate B vr] := by
          rw [breakCipher_str B S ct hct, h1, h2, h3] <;> rfl
        refine ⟨by rw [hresu, hres]; simp, ?_⟩
        intro e he
        rw [hresu] at he
        exact absurd he (by simp)
    ·
      have hresu : (breakCipher B S (JSInput.str ct)).result = Except.ok (railFenceEarlyOutcome B rr) := by
        rw [breakCipher_str B S ct hct, h1, h2] <;> rfl
      have hres : (breakCipher B S (JSInput.str ct)).results = [mkRailFenceCandidate B rr] := by
        rw [breakCipher_str B S ct hct, h1, h2] <;> rfl
      refine ⟨by rw [hresu, hres]; simp, ?_⟩
      intro e he
      rw [hresu] at he
      exact absurd he (by simp)
  ·
    rcases attemptRailFence_spec B (S.breakRailFence ct) with
        h2 | ⟨rr, hrr, hrrt, ⟨hlt2, h2⟩ | ⟨hge2, h2⟩⟩
    ·
      rcases attemptVigenere_spec B (S.breakVigenere ct) with
          h3 | ⟨vr, hvr, hvrt, ⟨hlt3, h3⟩ | ⟨hge3, h3⟩⟩
      ·
        have hresu : (breakCipher B S (JSInput.str ct)).result = Except.ok (fallbackOutcome ((sortByConfDesc [mkCaesarCandidate B cr]).headI)) := by
          rw [breakCipher_str B S ct hct, h1, h2, h3] <;> rfl
        have hres : (breakCipher B S (JSInput.str ct)).results = [mkCaesarCandidate B cr] := by
          rw [breakCipher_str B S ct hct, h1, h2, h3] <;> rfl
        refine ⟨by rw [hresu, hres]; simp, ?_⟩
        intro e he
        rw [hresu] at he
        exact absurd he (by simp)
      ·
        have hresu : (breakCipher B S (JSInput.str ct)).result = Except.ok (fallbackOutcome ((sortByConfDesc [mkCaesarCandidate B cr, mkVigenereCandidate B vr]).headI)) := by
          rw [breakCipher_str B S ct hct, h1, h2, h3] <;> rfl
        have hres : (breakCipher B S (JSInput.str ct)).results = [mkCaesarCandidate B cr, mkVigenereCandidate B vr] := by
          rw [breakCipher_str B S ct hct, h1, h2, h3] <;> rfl
        refine ⟨by rw [hresu, hres]; simp, ?_⟩
        intro e he
        rw [hresu] at he
        exact absurd he (by simp)
      ·
        have hresu : (breakCipher B S (JSInput.str ct)).result = Except.ok (vigenereEarlyOutcome B vr) := by
          rw [breakCipher_str B S ct hct, h1, h2, h3] <;> rfl
        have hres : (breakCipher B S (JSInput.str ct)).results = [mkCaesarCandidate B cr, mkVigenereCandidate B vr] := by
          rw [breakCipher_str B S ct hct, h1, h2, h3] <;> rfl
        refine ⟨by rw [hresu, hres]; simp, ?_⟩
        intro e he
        rw [hresu] at he
        exact absurd he (by simp)
    ·
      rcases attemptVigenere_spec B (S.breakVigenere ct) with
          h3 | ⟨vr, hvr, hvrt, ⟨hlt3, h3⟩ | ⟨hge3, h3⟩⟩
      ·
        have hresu : (breakCipher B S (JSInput.str ct)).result = Except.ok (fallbackOutcome ((sortByConfDesc [mkCaesarCandidate B cr, mkRailFenceCandidate B rr]).headI)) := by
          rw [breakCipher_str B S ct hct, h1, h2, h3] <;> rfl
        have hres : (breakCipher B S (JSInput.str ct)).results = [mkCaesarCandidate B cr, mkRailFenceCandidate B rr] := by
          rw [breakCipher_str B S ct hct, h1, h2, h3] <;> rfl
        refine ⟨by rw [hresu, hres]; simp, ?_⟩
        intro e he
        rw [hresu] at he
        exact absurd he (by simp)
      ·
        have hresu : (breakCipher B S (JSInput.str ct)).result = Except.ok (fallbackOutcome ((sortByConfDesc [mkCaesarCandidate B cr, mkRailFenceCandidate B rr, mkVigenereCandidate B vr]).headI)) := by
          rw [breakCipher_str B S ct hct, h1, h2, h3] <;> rfl
        have hres : (breakCipher B S (JSInput.str ct)).results = [mkCaesarCandidate B cr, mkRailFenceCandidate B rr, mkVigenereCandidate B vr] := by
          rw [breakCipher_str B S ct hct, h1, h2, h3] <;> rfl
        refine ⟨by rw [hresu, hres]; simp, ?_⟩
        intro e he
        rw [hresu] at he
        exact absurd he (by simp)
      ·
        have hresu : (breakCipher B S (JSInput.str ct)).result = Except.ok (vigenereEarlyOutcome B vr) := by
          rw [breakCipher_str B S ct hct, h1, h2, h3] <;> rfl
        have hres : (breakCipher B S (JSInput.str ct)).results = [mkCaesarCandidate B cr, mkRailFenceCandidate B rr, mkVigenereCandidate B vr] := by
          rw [breakCipher_str B S ct hct, h1, h2, h3] <;> rfl
        refine ⟨by rw [hresu, hres]; simp, ?_⟩
        intro e he
        rw [hresu] at he
        exact absurd he (by simp)
    ·
      have hresu : (breakCipher B S (JSInput.str ct)).result = Except.ok (railFenceEarlyOutcome B rr) := by
        rw [breakCipher_str B S ct hct, h1, h2] <;> rfl
      have hres : (breakCipher B S (JSInput.str ct)).results = [mkCaesarCandidate B cr, mkRailFenceCandidate B rr] := by
        rw [breakCipher_str B S ct hct, h1, h2] <;> rfl
      refine ⟨by rw [hresu, hres]; simp, ?_⟩
      intro e he
      rw [hresu] at he
      exact absurd he (by simp)
  ·
    have hresu : (breakCipher B S (JSInput.str ct)).result = Except.ok (caesarEarlyOutcome B cr) := by
      rw [breakCipher_str B S ct hct, h1] <;> rfl
    have hres : (breakCipher B S (JSInput.str ct)).results = [mkCaesarCandidate B cr] := by
      rw [breakCipher_str B S ct hct, h1] <;> rfl
    refine ⟨by rw [hresu, hres]; simp, ?_⟩
    intro e he
    rw [hresu] at he
    exact absurd he (by simp)

/-- C2: in every run on a non-empty string ciphertext, provided the
Vigenère collaborator honors its contract that a supplied validation
percentage lies in [0,100], the confidence of every recorded candidate
and of the returned outcome lies in [0,1] — including the Vigenère
branch that converts the percentage to a fraction by dividing by
100. -/
theorem breakCipher_confidence_in_unit_interval
    (B : Breaker) (S : Strategies) (ct : String) (hct : ct ≠ "")
    (hperc : ∀ vr v, S.breakVigenere ct = some vr → vr.validation = some v →
      0 ≤ v.percentage ∧ v.percentage ≤ 100) :
    (∀ c ∈ (breakCipher B S (JSInput.str ct)).results,
      0 ≤ c.confidence ∧ c.confidence ≤ 1) ∧
    (∀ o, (breakCipher B S (JSInput.str ct)).result = Except.ok o →
      0 ≤ o.confidence ∧ o.confidence ≤ 1) := by
  rcases attemptCaesar_spec B (S.breakCaesar ct) with
      h1 | ⟨cr, hcr, hcrt, ⟨hlt1, h1⟩ | ⟨hge1, h1⟩⟩
  ·
    rcases attemptRailFence_spec B (S.breakRailFence ct) with
        h2 | ⟨rr, hrr, hrrt, ⟨hlt2, h2⟩ | ⟨hge2, h2⟩⟩
    ·
      rcases attemptVigenere_spec B (S.breakVigenere ct) with
          h3 | ⟨vr, hvr, hvrt, ⟨hlt3, h3⟩ | ⟨hge3, h3⟩⟩
      ·
        have hresu : (breakCipher B S (JSInput.str ct)).result = Except.error BreakError.exhaustionError := by
          rw [breakCipher_str B S ct hct, h1, h2, h3] <;> rfl
        have hres : (breakCipher B S (JSInput.str ct)).results = [] := by
          rw [breakCipher_str B S ct hct, h1, h2, h3] <;> rfl
        have hall : ∀ c ∈ ([] : List Candidate), 0 ≤ c.confidence ∧ c.confidence ≤ 1 := by
          intro c hc
          exact absurd hc (List.not_mem_nil c)
        refine ⟨?_, ?_⟩
        · intro c hc
          rw [hres] at hc
          exact hall c hc
        · intro o ho
          rw [hresu] at ho
          exact absurd ho (by simp)
      ·
        have hresu : (breakCipher B S (JSInput.str ct)).result = Except.ok (fallbackOutcome ((sortByConfDesc [mkVigenereCandidate B vr]).headI)) := by
          rw [breakCipher_str B S ct hct, h1, h2, h3] <;> rfl
        have hres : (breakCipher B S (JSInput.str ct)).results = [mkVigenereCandidate B vr] := by
          rw [breakCipher_str B S ct hct, h1, h2, h3] <;> rfl
        have hall : ∀ c ∈ [mkVigenereCandidate B vr], 0 ≤ c.confidence ∧ c.confidence ≤ 1 := by
          intro c hc
          simp only [List.mem_singleton] at hc
          subst hc
          exact mkVigenereCandidate_confidence_bounds B vr (fun v hv => hperc vr v hvr hv)
        refine ⟨?_, ?_⟩
        · intro c hc
          rw [hres] at hc
          exact hall c hc
        · intro o ho
          rw [hresu] at ho
          injection ho with hh
          rw [← hh]
          exact hall _ (sortByConfDesc_headI_mem (mkVigenereCandidate B vr) [])
      ·
        have hresu : (breakCipher B S (JSInput.str ct)).result = Except.ok (vigenereEarlyOutcome B vr) := by
          rw [breakCipher_str B S ct hct, h1, h2, h3] <;> rfl
        have hres : (breakCipher B S (JSInput.str ct)).results = [mkVigenereCandidate B vr] := by
          rw [breakCipher_str B S ct hct, h1, h2, h3] <;> rfl
        have hall : ∀ c ∈ [mkVigenereCandidate B vr], 0 ≤ c.confidence ∧ c.confidence ≤ 1 := by
          intro c hc
          simp only [List.mem_singleton] at hc
          subst hc
          exact mkVigenereCandidate_confidence_bounds B vr (fun v hv => hperc vr v hvr hv)
        refine ⟨?_, ?_⟩
        · intro c hc
          rw [hres] at hc
          exact hall c hc
        · intro o ho
          rw [hresu] at ho
          injection ho with hh
          rw [← hh]
          exact mkVigenereCandidate_confidence_bounds B vr (fun v hv => hperc vr v hvr hv)
    ·
      rcases attemptVigenere_spec B (S.breakVigenere ct) with
          h3 | ⟨vr, hvr, hvrt, ⟨hlt3, h3⟩ | ⟨hge3, h3⟩⟩
      ·
        have hresu : (breakCipher B S (JSInput.str ct)).result = Except.ok (fallbackOutcome ((sortByConfDesc [mkRailFenceCandidate B rr]).headI)) := by
          rw [breakCipher_str B S ct hct, h1, h2, h3] <;> rfl
        have hres : (breakCipher B S (JSInput.str ct)).results = [mkRailFenceCandidate B rr] := by
          rw [breakCipher_str B S ct hct, h1, h2, h3] <;> rfl
        have hall : ∀ c ∈ [mkRailFenceCandidate B rr], 0 ≤ c.confidence ∧ c.confidence ≤ 1 := by
          intro c hc
          simp only [List.mem_singleton] at hc
          subst hc
          exact mkRailFenceCandidate_confidence_bounds B rr
        refine ⟨?_, ?_⟩
        · intro c hc
          rw [hres] at hc
          exact hall c hc
        · intro o ho
          rw [hresu] at ho
          injection ho with hh
          rw [← hh]
          exact hall _ (sortByConfDesc_headI_mem (mkRailFenceCandidate B rr) [])
      ·
        have hresu : (breakCipher B S (JSInput.str ct)).result = Except.ok (fallbackOutcome ((sortByConfDesc [mkRailFenceCandidate B rr, mkVigenereCandidate B vr]).headI)) := by
          rw [breakCipher_str B S ct hct, h1, h2, h3] <;> rfl
        have hres : (breakCipher B S (JSInput.str ct)).results = [mkRailFenceCandidate B rr, mkVigenereCandidate B vr] := by
          rw [breakCipher_str B S ct hct, h1, h2, h3] <;> rfl
        have hall : ∀ c ∈ [mkRailFenceCandidate B rr, mkVigenereCandidate B vr], 0 ≤ c.confidence ∧ c.confidence ≤ 1 := by
          intro c hc
          rcases List.mem_cons.mp hc with hc | hc
          · subst hc
            exact mkRailFenceCandidate_confidence_bounds B rr
          simp only [List.mem_singleton] at hc
          subst hc
          exact mkVigenereCandidate_confidence_bounds B vr (fun v hv => hperc vr v hvr hv)
        refine ⟨?_, ?_⟩
        · intro c hc
          rw [hres] at hc
          exact hall c hc
        · intro o ho
          rw [hresu] at ho
          injection ho with hh
          rw [← hh]
          exact hall _ (sortByConfDesc_headI_mem (mkRailFenceCandidate B rr) [mkVigenereCandidate B vr])
      ·
        have hresu : (breakCipher B S (JSInput.str ct)).result = Except.ok (vigenereEarlyOutcome B vr) := by
          rw [breakCipher_str B S ct hct, h1, h2, h3] <;> rfl
        have hres : (breakCipher B S (JSInput.str ct)).results = [mkRailFenceCandidate B rr, mkVigenereCandidate B vr] := by
          rw [breakCipher_str B S ct hct, h1, h2, h3] <;> rfl
        have hall : ∀ c ∈ [mkRailFenceCandidate B rr, mkVigenereCandidate B vr], 0 ≤ c.confidence ∧ c.confidence ≤ 1 := by
          intro c hc
          rcases List.mem_cons.mp hc with hc | hc
          · subst hc
            exact mkRailFenceCandidate_confidence_bounds B rr
          simp only [List.mem_singleton] at hc
          subst hc
          exact mkVigenereCandidate_confidence_bounds B vr (fun v hv => hperc vr v hvr hv)
        refine ⟨?_, ?_⟩
        · intro c hc
          rw [hres] at hc
          exact hall c hc
        · intro o ho
          rw [hresu] at ho
          injection ho with hh
          rw [← hh]
          exact mkVigenereCandidate_confidence_bounds B vr (fun v hv => hperc vr v hvr hv)
    ·
      have hresu : (breakCipher B S (JSInput.str ct)).result = Except.ok (railFenceEarlyOutcome B rr) := by
        rw [breakCipher_str B S ct hct, h1, h2] <;> rfl
      have hres : (breakCipher B S (JSInput.str ct)).results = [mkRailFenceCandidate B rr] := by
        rw [breakCipher_str B S ct hct, h1, h2] <;> rfl
      have hall : ∀ c ∈ [mkRailFenceCandidate B rr], 0 ≤ c.confidence ∧ c.confidence ≤ 1 := by
        intro c hc
        simp only [List.mem_singleton] at hc
        subst hc
        exact mkRailFenceCandidate_confidence_bounds B rr
      refine ⟨?_, ?_⟩
      · intro c hc
        rw [hres] at hc
        exact hall c hc
      · intro o ho
        rw [hresu] at ho
        injection ho with hh
        rw [← hh]
        exact mkRailFenceCandidate_confidence_bounds B rr
  ·
    rcases attemptRailFence_spec B (S.breakRailFence ct) with
        h2 | ⟨rr, hrr, hrrt, ⟨hlt2, h2⟩ | ⟨hge2, h2⟩⟩
    ·
      rcases attemptVigenere_spec B (S.breakVigenere ct) with
          h3 | ⟨vr, hvr, hvrt, ⟨hlt3, h3⟩ | ⟨hge3, h3⟩⟩
      ·
        have hresu : (breakCipher B S (JSInput.str ct)).result = Except.ok (fallbackOutcome ((sortByConfDesc [mkCaesarCandidate B cr]).headI)) := by
          rw [breakCipher_str B S ct hct, h1, h2, h3] <;> rfl
        have hres : (breakCipher B S (JSInput.str ct)).results = [mkCaesarCandidate B cr] := by
          rw [breakCipher_str B S ct hct, h1, h2, h3] <;> rfl
        have hall : ∀ c ∈ [mkCaesarCandidate B cr], 0 ≤ c.confidence ∧ c.confidence ≤ 1 := by
          intro c hc
          simp only [List.mem_singleton] at hc
          subst hc
          exact mkCaesarCandidate_confidence_bounds B cr
        refine ⟨?_, ?_⟩
        · intro c hc
          rw [hres] at hc
          exact hall c hc
        · intro o ho
          rw [hresu] at ho
          injection ho with hh
          rw [← hh]
          exact hall _ (sortByConfDesc_headI_mem (mkCaesarCandidate B cr) [])
      ·
        have hresu : (breakCipher B S (JSInput.str ct)).result = Except.ok (fallbackOutcome ((sortByConfDesc [mkCaesarCandidate B cr, mkVigenereCandidate B vr]).headI)) := by
          rw [breakCipher_str B S ct hct, h1, h2, h3] <;> rfl
        have hres : (breakCipher B S (JSInput.str ct)).results = [mkCaesarCandidate B cr, mkVigenereCandidate B vr] := by
          rw [breakCipher_str B S ct hct, h1, h2, h3] <;> rfl
        have hall : ∀ c ∈ [mkCaesarCandidate B cr, mkVigenereCandidate B vr], 0 ≤ c.confidence ∧ c.confidence ≤ 1 := by
          intro c hc
          rcases List.mem_cons.mp hc with hc | hc
          · subst hc
            exact mkCaesarCandidate_confidence_bounds B cr
          simp only [List.mem_singleton] at hc
          subst hc
          exact mkVigenereCandidate_confidence_bounds B vr (fun v hv => hperc vr v hvr hv)
        refine ⟨?_, ?_⟩
        · intro c hc
          rw [hres] at hc
          exact hall c hc
        · intro o ho
          rw [hresu] at ho
          injection ho with hh
          rw [← hh]
          exact hall _ (sortByConfDesc_headI_mem (mkCaesarCandidate B cr) [mkVigenereCandidate B vr])
      ·
        have hresu : (breakCipher B S (JSInput.str ct)).result = Except.ok (vigenereEarlyOutcome B vr) := by
          rw [breakCipher_str B S ct hct, h1, h2, h3] <;> rfl
        have hres : (breakCipher B S (JSInput.str ct)).results = [mkCaesarCandidate B cr, mkVigenereCandidate B vr] := by
          rw [breakCipher_str B S ct hct, h1, h2, h3] <;> rfl
        have hall : ∀ c ∈ [mkCaesarCandidate B cr, mkVigenereCandidate B vr], 0 ≤ c.confidence ∧ c.confidence ≤ 1 := by
          intro c hc
          rcases List.mem_cons.mp hc with hc | hc
          · subst hc
            exact mkCaesarCandidate_confidence_bounds B cr
          simp only [List.mem_singleton] at hc
          subst hc
          exact mkVigenereCandidate_confidence_bounds B vr (fun v hv => hperc vr v hvr hv)
        refine ⟨?_, ?_⟩
        · intro c hc
          rw [hres] at hc
          exact hall c hc
        · intro o ho
          rw [hresu] at ho
          injection ho with hh
          rw [← hh]
          exact mkVigenereCandidate_confidence_bounds B vr (fun v hv => hperc vr v hvr hv)
    ·
      rcases attemptVigenere_spec B (S.breakVigenere ct) with
          h3 | ⟨vr, hvr, hvrt, ⟨hlt3, h3⟩ | ⟨hge3, h3⟩⟩
      ·
        have hresu : (breakCipher B S (JSInput.str ct)).result = Except.ok (fallbackOutcome ((sortByConfDesc [mkCaesarCandidate B cr, mkRailFenceCandidate B rr]).headI)) := by
          rw [breakCipher_str B S ct hct, h1, h2, h3] <;> rfl
        have hres : (breakCipher B S (JSInput.str ct)).results = [mkCaesarCandidate B cr, mkRailFenceCandidate B rr] := by
          rw [breakCipher_str B S ct hct, h1, h2, h3] <;> rfl
        have hall : ∀ c ∈ [mkCaesarCandidate B cr, mkRailFenceCandidate B rr], 0 ≤ c.confidence ∧ c.confidence ≤ 1 := by
          intro c hc
          rcases List.mem_cons.mp hc with hc | hc
          · subst hc
            exact mkCaesarCandidate_confidence_bounds B cr
          simp only [List.mem_singleton] at hc
          subst hc
          exact mkRailFenceCandidate_confidence_bounds B rr
        refine ⟨?_, ?_⟩
        · intro c hc
          rw [hres] at hc
          exact hall c hc
        · intro o ho
          rw [hresu] at ho
          injection ho with hh
          rw [← hh]
          exact hall _ (sortByConfDesc_headI_mem (mkCaesarCandidate B cr) [mkRailFenceCandidate B rr])
      ·
        have hresu : (breakCipher B S (JSInput.str ct)).result = Except.ok (fallbackOutcome ((sortByConfDesc [mkCaesarCandidate B cr, mkRailFenceCandidate B rr, mkVigenereCandidate B vr]).headI)) := by
          rw [breakCipher_str B S ct hct, h1, h2, h3] <;> rfl
        have hres : (breakCipher B S (JSInput.str ct)).results = [mkCaesarCandidate B cr, mkRailFenceCandidate B rr, mkVigenereCandidate B vr] := by
          rw [breakCipher_str B S ct hct, h1, h2, h3] <;> rfl
        have hall : ∀ c ∈ [mkCaesarCandidate B cr, mkRailFenceCandidate B rr, mkVigenereCandidate B vr], 0 ≤ c.confidence ∧ c.confidence ≤ 1 := by
          intro c hc
          rcases List.mem_cons.mp hc with hc | hc
          · subst hc
            exact mkCaesarCandidate_confidence_bounds B cr
          rcases List.mem_cons.mp hc with hc | hc
          · subst hc
            exact mkRailFenceCandidate_confidence_bounds B rr
          simp only [List.mem_singleton] at hc
          subst hc
          exact mkVigenereCandidate_confidence_bounds B vr (fun v hv => hperc vr v hvr hv)
        refine ⟨?_, ?_⟩
        · intro c hc
          rw [hres] at hc
          exact hall c hc
        · intro o ho
          rw [hresu] at ho
          injection ho with hh
          rw [← hh]
          exact hall _ (sortByConfDesc_headI_mem (mkCaesarCandidate B cr) [mkRailFenceCandidate B rr, mkVigenereCandidate B vr])
      ·
        have hresu : (breakCipher B S (JSInput.str ct)).result = Except.ok (vigenereEarlyOutcome B vr) := by
          rw [breakCipher_str B S ct hct, h1, h2, h3] <;> rfl
        have hres : (breakCipher B S (JSInput.str ct)).results = [mkCaesarCandidate B cr, mkRailFenceCandidate B rr, mkVigenereCandidate B vr] := by
          rw [breakCipher_str B S ct hct, h1, h2, h3] <;> rfl
        have hall : ∀ c ∈ [mkCaesarCandidate B cr, mkRailFenceCandidate B rr, mkVigenereCandidate B vr], 0 ≤ c.confidence ∧ c.confidence ≤ 1 := by
          intro c hc
          rcases List.mem_cons.mp hc with hc | hc
          · subst hc
            exact mkCaesarCandidate_confidence_bounds B cr
          rcases List.mem_cons.mp hc with hc | hc
          · subst hc
            exact mkRailFenceCandidate_confidence_bounds B rr
          simp only [List.mem_singleton] at hc
          subst hc
          exact mkVigenereCandidate_confidence_bounds B vr (fun v hv => hperc vr v hvr hv)
        refine ⟨?_, ?_⟩
        · intro c hc
          rw [hres] at hc
          exact hall c hc
        · intro o ho
          rw [hresu] at ho
          injection ho with hh
          rw [← hh]
          exact mkVigenereCandidate_confidence_bounds B vr (fun v hv => hperc vr v hvr hv)
    ·
      have hresu : (breakCipher B S (JSInput.str ct)).result = Except.ok (railFenceEarlyOutcome B rr) := by
        rw [breakCipher_str B S ct hct, h1, h2] <;> rfl
      have hres : (breakCipher B S (JSInput.str ct)).results = [mkCaesarCandidate B cr, mkRailFenceCandidate B rr] := by
        rw [breakCipher_str B S ct hct, h1, h2] <;> rfl
      have hall : ∀ c ∈ [mkCaesarCandidate B cr, mkRailFenceCandidate B rr], 0 ≤ c.confidence ∧ c.confidence ≤ 1 := by
        intro c hc
        rcases List.mem_cons.mp hc with hc | hc
        · subst hc
          exact mkCaesarCandidate_confidence_bounds B cr
        simp only [List.mem_singleton] at hc
        subst hc
        exact mkRailFenceCandidate_confidence_bounds B rr
      refine ⟨?_, ?_⟩
      · intro c hc
        rw [hres] at hc
        exact hall c hc
      · intro o ho
        rw [hresu] at ho
        injection ho with hh
        rw [← hh]
        exact mkRailFenceCandidate_confidence_bounds B rr
  ·
    have hresu : (breakCipher B S (JSInput.str ct)).result = Except.ok (caesarEarlyOutcome B cr) := by
      rw [breakCipher_str B S ct hct, h1] <;> rfl
    have hres : (breakCipher B S (JSInput.str ct)).results = [mkCaesarCandidate B cr] := by
      rw [breakCipher_str B S ct hct, h1] <;> rfl
    have hall : ∀ c ∈ [mkCaesarCandidate B cr], 0 ≤ c.confidence ∧ c.confidence ≤ 1 := by
      intro c hc
      simp only [List.mem_singleton] at hc
      subst hc
      exact mkCaesarCandidate_confidence_bounds B cr
    refine ⟨?_, ?_⟩
    · intro c hc
      rw [hres] at hc
      exact hall c hc
    · intro o ho
      rw [hresu] at ho
      injection ho with hh
      rw [← hh]
      exact mkCaesarCandidate_confidence_bounds B cr

/-- C5: when the cascade completes without early exit but with at
least one candidate collected, `breakCipher` resolves with
`success := false` and the fields of the top candidate of the stable
confidence-descending sort: a candidate of maximal confidence among
all collected ones, and on ties the earliest-attempted one (every
candidate recorded before it has strictly smaller confidence). -/
theorem breakCipher_fallback_ranking
    (B : Breaker) (S : Strategies) (ct : String) (o : Outcome) (hct : ct ≠ "")
    (ho : (breakCipher B S (JSInput.str ct)).result = Except.ok o)
    (hs : o.success = false) :
    ∃ best pre post,
      (breakCipher B S (JSInput.str ct)).results = pre ++ best :: post ∧
      (∀ c ∈ (breakCipher B S (JSInput.str ct)).results,
        c.confidence ≤ best.confidence) ∧
      (∀ c ∈ pre, c.confidence < best.confidence) ∧
      o = fallbackOutcome best := by
  rcases attemptCaesar_spec B (S.breakCaesar ct) with
      h1 | ⟨cr, hcr, hcrt, ⟨hlt1, h1⟩ | ⟨hge1, h1⟩⟩
  ·
    rcases attemptRailFence_spec B (S.breakRailFence ct) with
        h2 | ⟨rr, hrr, hrrt, ⟨hlt2, h2⟩ | ⟨hge2, h2⟩⟩
    ·
      rcases attemptVigenere_spec B (S.breakVigenere ct) with
          h3 | ⟨vr, hvr, hvrt, ⟨hlt3, h3⟩ | ⟨hge3, h3⟩⟩
      ·
        have hresu : (breakCipher B S (JSInput.str ct)).result = Except.error BreakError.exhaustionError := by
          rw [breakCipher_str B S ct hct, h1, h2, h3] <;> rfl
        have hres : (breakCipher B S (JSInput.str ct)).results = [] := by
          rw [breakCipher_str B S ct hct, h1, h2, h3] <;> rfl
        rw [hresu] at ho
        exact absurd ho (by simp)
      ·
        have hresu : (breakCipher B S (JSInput.str ct)).result = Except.ok (fallbackOutcome ((sortByConfDesc [mkVigenereCandidate B vr]).headI)) := by
          rw [breakCipher_str B S ct hct, h1, h2, h3] <;> rfl
        have hres : (breakCipher B S (JSInput.str ct)).results = [mkVigenereCandidate B vr] := by
          rw [breakCipher_str B S ct hct, h1, h2, h3] <;> rfl
        rw [hresu] at ho
        injection ho with hh
        obtain ⟨b, rest, hsort, hmax⟩ := sortByConfDesc_head (mkVigenereCandidate B vr) []
        obtain ⟨hle, pre, post, hdecomp, hpre⟩ := specFirstMax_spec [mkVigenereCandidate B vr] b hmax
        refine ⟨b, pre, post, ?_, ?_, hpre, ?_⟩
        · rw [hres, hdecomp]
        · intro c hc
          rw [hres] at hc
          exact hle c hc
        · rw [← hh, hsort] <;> rfl
      ·
        have hresu : (breakCipher B S (JSInput.str ct)).result = Except.ok (vigenereEarlyOutcome B vr) := by
          rw [breakCipher_str B S ct hct, h1, h2, h3] <;> rfl
        have hres : (breakCipher B S (JSInput.str ct)).results = [mkVigenereCandidate B vr] := by
          rw [breakCipher_str B S ct hct, h1, h2, h3] <;> rfl
        rw [hresu] at ho
        injection ho with hh
        rw [← hh] at hs
        simp [vigenereEarlyOutcome] at hs
    ·
      rcases attemptVigenere_spec B (S.breakVigenere ct) with
          h3 | ⟨vr, hvr, hvrt, ⟨hlt3, h3⟩ | ⟨hge3, h3⟩⟩
      ·
        have hresu : (breakCipher B S (JSInput.str ct)).result = Except.ok (fallbackOutcome ((sortByConfDesc [mkRailFenceCandidate B rr]).headI)) := by
          rw [breakCipher_str B S ct hct, h1, h2, h3] <;> rfl
        have hres : (breakCipher B S (JSInput.str ct)).results = [mkRailFenceCandidate B rr] := by
          rw [breakCipher_str B S ct hct, h1, h2, h3] <;> rfl
        rw [hresu] at ho
        injection ho with hh
        obtain ⟨b, rest, hsort, hmax⟩ := sortByConfDesc_head (mkRailFenceCandidate B rr) []
        obtain ⟨hle, pre, post, hdecomp, hpre⟩ := specFirstMax_spec [mkRailFenceCandidate B rr] b hmax
        refine ⟨b, pre, post, ?_, ?_, hpre, ?_⟩
        · rw [hres, hdecomp]
        · intro c hc
          rw [hres] at hc
          exact hle c hc
        · rw [← hh, hsort] <;> rfl
      ·
        have hresu : (breakCipher B S (JSInput.str ct)).result = Except.ok (fallbackOutcome ((sortByConfDesc [mkRailFenceCandidate B rr, mkVigenereCandidate B vr]).headI)) := by
          rw [breakCipher_str B S ct hct, h1, h2, h3] <;> rfl
        have hres : (breakCipher B S (JSInput.str ct)).results = [mkRailFenceCandidate B rr, mkVigenereCandidate B vr] := by
          rw [breakCipher_str B S ct hct, h1, h2, h3] <;> rfl
        rw [hresu] at ho
        injection ho with hh
        obtain ⟨b, rest, hsort, hmax⟩ := sortByConfDesc_head (mkRailFenceCandidate B rr) [mkVigenereCandidate B vr]
        obtain ⟨hle, pre, post, hdecomp, hpre⟩ := specFirstMax_spec [mkRailFenceCandidate B rr, mkVigenereCandidate B vr] b hmax
        refine ⟨b, pre, post, ?_, ?_, hpre, ?_⟩
        · rw [hres, hdecomp]
        · intro c hc
          rw [hres] at hc
          exact hle c hc
        · rw [← hh, hsort] <;> rfl
      ·
        have hresu : (breakCipher B S (JSInput.str ct)).result = Except.ok (vigenereEarlyOutcome B vr) := by
          rw [breakCipher_str B S ct hct, h1, h2, h3] <;> rfl
        have hres : (breakCipher B S (JSInput.str ct)).results = [mkRailFenceCandidate B rr, mkVigenereCandidate B vr] := by
          rw [breakCipher_str B S ct hct, h1, h2, h3] <;> rfl
        rw [hresu] at ho
        injection ho with hh
        rw [← hh] at hs
        simp [vigenereEarlyOutcome] at hs
    ·
      have hresu : (breakCipher B S (JSInput.str ct)).result = Except.ok (railFenceEarlyOutcome B rr) := by
        rw [breakCipher_str B S ct hct, h1, h2] <;> rfl
      have hres : (breakCipher B S (JSInput.str ct)).results = [mkRailFenceCandidate B rr] := by
        rw [breakCipher_str B S ct hct, h1, h2] <;> rfl
      rw [hresu] at ho
      injection ho with hh
      rw [← hh] at hs
      simp [railFenceEarlyOutcome] at hs
  ·
    rcases attemptRailFence_spec B (S.breakRailFence ct) with
        h2 | ⟨rr, hrr, hrrt, ⟨hlt2, h2⟩ | ⟨hge2, h2⟩⟩
    ·
      rcases attemptVigenere_spec B (S.breakVigenere ct) with
          h3 | ⟨vr, hvr, hvrt, ⟨hlt3, h3⟩ | ⟨hge3, h3⟩⟩
      ·
        have hresu : (breakCipher B S (JSInput.str ct)).result = Except.ok (fallbackOutcome ((sortByConfDesc [mkCaesarCandidate B cr]).headI)) := by
          rw [breakCipher_str B S ct hct, h1, h2, h3] <;> rfl
        have hres : (breakCipher B S (JSInput.str ct)).results = [mkCaesarCandidate B cr] := by
          rw [breakCipher_str B S ct hct, h1, h2, h3] <;> rfl
        rw [hresu] at ho
        injection ho with hh
        obtain ⟨b, rest, hsort, hmax⟩ := sortByConfDesc_head (mkCaesarCandidate B cr) []
        obtain ⟨hle, pre, post, hdecomp, hpre⟩ := specFirstMax_spec [mkCaesarCandidate B cr] b hmax
        refine ⟨b, pre, post, ?_, ?_, hpre, ?_⟩
        · rw [hres, hdecomp]
        · intro c hc
          rw [hres] at hc
          exact hle c hc
        · rw [← hh, hsort] <;> rfl
      ·
        have hresu : (breakCipher B S (JSInput.str ct)).result = Except.ok (fallbackOutcome ((sortByConfDesc [mkCaesarCandidate B cr, mkVigenereCandidate B vr]).headI)) := by
          rw [breakCipher_str B S ct hct, h1, h2, h3] <;> rfl
        have hres : (breakCipher B S (JSInput.str ct)).results = [mkCaesarCandidate B cr, mkVigenereCandidate B vr] := by
          rw [breakCipher_str B S ct hct, h1, h2, h3] <;> rfl
        rw [hresu] at ho
        injection ho with hh
        obtain ⟨b, rest, hsort, hmax⟩ := sortByConfDesc_head (mkCaesarCandidate B cr) [mkVigenereCandidate B vr]
        obtain ⟨hle, pre, post, hdecomp, hpre⟩ := specFirstMax_spec [mkCaesarCandidate B cr, mkVigenereCandidate B vr] b hmax
        refine ⟨b, pre, post, ?_, ?_, hpre, ?_⟩
        · rw [hres, hdecomp]
        · intro c hc
          rw [hres] at hc
          exact hle c hc
        · rw [← hh, hsort] <;> rfl
      ·
        have hresu : (breakCipher B S (JSInput.str ct)).result = Except.ok (vigenereEarlyOutcome B vr) := by
          rw [breakCipher_str B S ct hct, h1, h2, h3] <;> rfl
        have hres : (breakCipher B S (JSInput.str ct)).results = [mkCaesarCandidate B cr, mkVigenereCandidate B vr] := by
          rw [breakCipher_str B S ct hct, h1, h2, h3] <;> rfl
        rw [hresu] at ho
        injection ho with hh
        rw [← hh] at hs
        simp [vigenereEarlyOutcome] at hs
    ·
      rcases attemptVigenere_spec B (S.breakVigenere ct) with
          h3 | ⟨vr, hvr, hvrt, ⟨hlt3, h3⟩ | ⟨hge3, h3⟩⟩
      ·
        have hresu : (breakCipher B S (JSInput.str ct)).result = Except.ok (fallbackOutcome ((sortByConfDesc [mkCaesarCandidate B cr, mkRailFenceCandidate B rr]).headI)) := by
          rw [breakCipher_str B S ct hct, h1, h2, h3] <;> rfl
        have hres : (breakCipher B S (JSInput.str ct)).results = [mkCaesarCandidate B cr, mkRailFenceCandidate B rr] := by
          rw [breakCipher_str B S ct hct, h1, h2, h3] <;> rfl
        rw [hresu] at ho
        injection ho with hh
        obtain ⟨b, rest, hsort, hmax⟩ := sortByConfDesc_head (mkCaesarCandidate B cr) [mkRailFenceCandidate B rr]
        obtain ⟨hle, pre, post, hdecomp, hpre⟩ := specFirstMax_spec [mkCaesarCandidate B cr, mkRailFenceCandidate B rr] b hmax
        refine ⟨b, pre, post, ?_, ?_, hpre, ?_⟩
        · rw [hres, hdecomp]
        · intro c hc
          rw [hres] at hc
          exact hle c hc
        · rw [← hh, hsort] <;> rfl
      ·
        have hresu : (breakCipher B S (JSInput.str ct)).result = Except.ok (fallbackOutcome ((sortByConfDesc [mkCaesarCandidate B cr, mkRailFenceCandidate B rr, mkVigenereCandidate B vr]).headI)) := by
          rw [breakCipher_str B S ct hct, h1, h2, h3] <;> rfl
        have hres : (breakCipher B S (JSInput.str ct)).results = [mkCaesarCandidate B cr, mkRailFenceCandidate B rr, mkVigenereCandidate B vr] := by
          rw [breakCipher_str B S ct hct, h1, h2, h3] <;> rfl
        rw [hresu] at ho
        injection ho with hh
        obtain ⟨b, rest, hsort, hmax⟩ := sortByConfDesc_head (mkCaesarCandidate B cr) [mkRailFenceCandidate B rr, mkVigenereCandidate B vr]
        obtain ⟨hle, pre, post, hdecomp, hpre⟩ := specFirstMax_spec [mkCaesarCandidate B cr, mkRailFenceCandidate B rr, mkVigenereCandidate B vr] b hmax
        refine ⟨b, pre, post, ?_, ?_, hpre, ?_⟩
        · rw [hres, hdecomp]
        · intro c hc
          rw [hres] at hc
          exact hle c hc
        · rw [← hh, hsort] <;> rfl
      ·
        have hresu : (breakCipher B S (JSInput.str ct)).result = Except.ok (vigenereEarlyOutcome B vr) := by
          rw [breakCipher_str B S ct hct, h1, h2, h3] <;> rfl
        have hres : (breakCipher B S (JSInput.str ct)).results = [mkCaesarCandidate B cr, mkRailFenceCandidate B rr, mkVigenereCandidate B vr] := by
          rw [breakCipher_str B S ct hct, h1, h2, h3] <;> rfl
        rw [hresu] at ho
        injection ho with hh
        rw [← hh] at hs
        simp [vigenereEarlyOutcome] at hs
    ·
      have hresu : (breakCipher B S (JSInput.str ct)).result = Except.ok (railFenceEarlyOutcome B rr) := by
        rw [breakCipher_str B S ct hct, h1, h2] <;> rfl
      have hres : (breakCipher B S (JSInput.str ct)).results = [mkCaesarCandidate B cr, mkRailFenceCandidate B rr] := by
        rw [breakCipher_str B S ct hct, h1, h2] <;> rfl
      rw [hresu] at ho
      injection ho with hh
      rw [← hh] at hs
      simp [railFenceEarlyOutcome] at hs
  ·
    have hresu : (breakCipher B S (JSInput.str ct)).result = Except.ok (caesarEarlyOutcome B cr) := by
      rw [breakCipher_str B S ct hct, h1] <;> rfl
    have hres : (breakCipher B S (JSInput.str ct)).results = [mkCaesarCandidate B cr] := by
      rw [breakCipher_str B S ct hct, h1] <;> rfl
    rw [hresu] at ho
    injection ho with hh
    rw [← hh] at hs
    simp [caesarEarlyOutcome] at hs

/-- C7: for an empty-string or non-string ciphertext, `breakCipher`
fails with the input error before any strategy's decrypt operation is
invoked: the result is the InputError, no candidate is recorded, and
the invoked-strategy list is empty. -/
theorem breakCipher_input_guard (B : Breaker) (S : Strategies) :
    breakCipher B S (JSInput.str "") =
      ⟨Except.error BreakError.inputError, [], []⟩ ∧
    breakCipher B S JSInput.nonString =
      ⟨Except.error BreakError.inputError, [], []⟩ := by
  constructor
  · rw [breakCipher]
    rw [if_pos rfl]
  · rfl

/-- C9: two-run determinism — under the hypothesis that each strategy
collaborator is a pure function of the ciphertext (and its configured
dictionary), two invocations of `breakCipher` on the same ciphertext
with the same dictionary state produce identical outputs: the run
depends only on the collaborators' values at the ciphertext. -/
theorem breakCipher_deterministic (B : Breaker) (S₁ S₂ : Strategies) (ct : String)
    (hC : S₁.breakCaesar ct = S₂.breakCaesar ct)
    (hR : S₁.breakRailFence ct = S₂.breakRailFence ct)
    (hV : S₁.breakVigenere ct = S₂.breakVigenere ct) :
    breakCipher B S₁ (JSInput.str ct) = breakCipher B S₂ (JSInput.str ct) := by
  by_cases h : ct = ""
  · subst h
    rfl
  · rw [breakCipher_str B S₁ ct h, breakCipher_str B S₂ ct h, hC, hR, hV]

/-- C9 witness: the determinism theorem applied at a concrete breaker,
concrete strategies and a concrete ciphertext. -/
theorem breakCipher_deterministic_witness :
    sampleCaesarHit.breakCaesar "xyz" = sampleCaesarHit.breakCaesar "xyz" ∧
    sampleCaesarHit.breakRailFence "xyz" = sampleCaesarHit.breakRailFence "xyz" ∧
    sampleCaesarHit.breakVigenere "xyz" = sampleCaesarHit.breakVigenere "xyz" ∧
    breakCipher sampleBreaker sampleCaesarHit (JSInput.str "xyz") =
      breakCipher sampleBreaker sampleCaesarHit (JSInput.str "xyz") :=
  ⟨rfl, rfl, rfl,
    breakCipher_deterministic sampleBreaker sampleCaesarHit sampleCaesarHit "xyz" rfl rfl rfl⟩

/-- C6 counterexample: the Coordinator also raises outside the
exhaustion case — resolving the empty ciphertext raises the
InputError, which is distinct from the ExhaustionError, with no
strategy attempted; so exhaustion is not the only condition under
which the Coordinator itself raises. -/
theorem breakCipher_raise_not_only_exhaustion :
    (breakCipher sampleBreaker sampleCaesarHit (JSInput.str "")).result =
      Except.error BreakError.inputError ∧
    BreakError.inputError ≠ BreakError.exhaustionError := by
  constructor
  · rw [breakCipher]
    rw [if_pos rfl]
  · decide

/-- C1 witness: the cascade theorem applied at a concrete breaker,
strategies and ciphertext (Caesar hits with full confidence). -/
theorem breakCipher_cascade_order_early_exit_witness :
    ("abc" : String) ≠ "" ∧
    ((∃ k, 1 ≤ k ∧ k ≤ 3 ∧
      (breakCipher sampleBreaker sampleCaesarHit (JSInput.str "abc")).invoked =
        cascadeOrder.take k) ∧
    (∀ c ∈ (breakCipher sampleBreaker sampleCaesarHit (JSInput.str "abc")).results,
      confidenceThreshold ≤ c.confidence →
      ∃ o, (breakCipher sampleBreaker sampleCaesarHit (JSInput.str "abc")).result =
          Except.ok o ∧
        o.success = true ∧ o.method = c.method ∧ o.confidence = c.confidence ∧
        (breakCipher sampleBreaker sampleCaesarHit (JSInput.str "abc")).results.getLast? =
          some c ∧
        (breakCipher sampleBreaker sampleCaesarHit (JSInput.str "abc")).invoked.getLast? =
          some c.method)) :=
  ⟨by decide,
    breakCipher_cascade_order_early_exit sampleBreaker sampleCaesarHit "abc" (by decide)⟩

/-- C2 witness: the confidence-bounds theorem applied at a concrete
breaker, strategies (Vigenère supplying a 50% validation percentage)
and ciphertext. -/
theorem breakCipher_confidence_in_unit_interval_witness :
    ("abc" : String) ≠ "" ∧
    (∀ vr v, sampleVigenerePct.breakVigenere "abc" = some vr → vr.validation = some v →
      0 ≤ v.percentage ∧ v.percentage ≤ 100) ∧
    ((∀ c ∈ (breakCipher sampleBreaker sampleVigenerePct (JSInput.str "abc")).results,
      0 ≤ c.confidence ∧ c.confidence ≤ 1) ∧
    (∀ o, (breakCipher sampleBreaker sampleVigenerePct (JSInput.str "abc")).result =
        Except.ok o →
      0 ≤ o.confidence ∧ o.confidence ≤ 1)) :=
  ⟨by decide,
   by
    intro vr v hvr hv
    injection hvr with h1
    subst h1
    injection hv with h2
    subst h2
    constructor <;> norm_num,
   breakCipher_confidence_in_unit_interval sampleBreaker sampleVigenerePct "abc" (by decide)
     (by
      intro vr v hvr hv
      injection hvr with h1
      subst h1
      injection hv with h2
      subst h2
      constructor <;> norm_num)⟩

/-- C5 witness: the fallback-ranking theorem applied at a concrete
breaker, strategies and ciphertext where no strategy reaches the
threshold and the Vigenère candidate wins the ranking. -/
theorem breakCipher_fallback_ranking_witness :
    ("abc" : String) ≠ "" ∧
    (breakCipher sampleBreaker sampleFallback (JSInput.str "abc")).result =
      Except.ok (fallbackOutcome
        (mkVigenereCandidate sampleBreaker ⟨"KEY", "hello zzz", 10, none⟩)) ∧
    (fallbackOutcome
        (mkVigenereCandidate sampleBreaker ⟨"KEY", "hello zzz", 10, none⟩)).success =
      false ∧
    (∃ best pre post,
      (breakCipher sampleBreaker sampleFallback (JSInput.str "abc")).results =
        pre ++ best :: post ∧
      (∀ c ∈ (breakCipher sampleBreaker sampleFallback (JSInput.str "abc")).results,
        c.confidence ≤ best.confidence) ∧
      (∀ c ∈ pre, c.confidence < best.confidence) ∧
      fallbackOutcome (mkVigenereCandidate sampleBreaker ⟨"KEY", "hello zzz", 10, none⟩) =
        fallbackOutcome best) :=
  ⟨by decide, by with_unfolding_all decide, rfl,
    breakCipher_fallback_ranking sampleBreaker sampleFallback "abc"
      (fallbackOutcome (mkVigenereCandidate sampleBreaker ⟨"KEY", "hello zzz", 10, none⟩))
      (by decide) (by with_unfolding_all decide) rfl⟩

/-- C6 (amended) witness: the exhaustion theorem applied at a concrete
breaker, all-failing strategies and a concrete ciphertext. -/
theorem breakCipher_exhaustion_only_raise_witness :
    ("abc" : String) ≠ "" ∧
    (((breakCipher sampleBreaker sampleAllFail (JSInput.str "abc")).result =
        Except.error BreakError.exhaustionError ↔
      (breakCipher sampleBreaker sampleAllFail (JSInput.str "abc")).results = []) ∧
    (∀ e, (breakCipher sampleBreaker sampleAllFail (JSInput.str "abc")).result =
        Except.error e →
      e = BreakError.exhaustionError)) :=
  ⟨by decide,
    breakCipher_exhaustion_only_raise sampleBreaker sampleAllFail "abc" (by decide)⟩

/-- C8: `validateText` splits on whitespace, strips non-alphabetic
characters from each token and uppercases the remainder, discards
tokens that become empty (the `prepWords` pipeline); when zero tokens
remain — in particular for the empty string — it returns confidence 0
with zero counts and empty invalidWords; otherwise it returns
confidence = validCount / totalCount where validCount counts the
tokens found in the dictionary, totalWords is the token count, and
invalidWords lists the failing tokens in original encounter order. -/
theorem validateText_spec (B : Breaker) (t : String) :
    validateText B "" = ⟨0, 0, 0, []⟩ ∧
    (prepWords t = [] → validateText B t = ⟨0, 0, 0, []⟩) ∧
    (prepWords t ≠ [] →
      validateText B t =
        ⟨(((prepWords t).countP (fun w => (effectiveDictionary B).contains w) : ℚ)) /
            ((prepWords t).length : ℚ),
          ((prepWords t).countP (fun w => (effectiveDictionary B).contains w) : ℤ),
          (prepWords t).length,
          (prepWords t).filter (fun w => !(effectiveDictionary B).contains w)⟩) := by
  refine ⟨?_, ?_, ?_⟩
  · rw [validateText_eq, prepWords_empty]
    rfl
  · intro h
    rw [validateText_eq, if_pos h]
  · intro h
    rw [validateText_eq, if_neg h]

/-- C8 witness: the specification applied at a concrete breaker and
text. -/
theorem validateText_spec_witness :
    prepWords "zzq! the2 ...  HeLLo" ≠ [] ∧
    validateText sampleBreaker "zzq! the2 ...  HeLLo" =
      ⟨(((prepWords "zzq! the2 ...  HeLLo").countP
            (fun w => (effectiveDictionary sampleBreaker).contains w) : ℚ)) /
          ((prepWords "zzq! the2 ...  HeLLo").length : ℚ),
        ((prepWords "zzq! the2 ...  HeLLo").countP
            (fun w => (effectiveDictionary sampleBreaker).contains w) : ℤ),
        (prepWords "zzq! the2 ...  HeLLo").length,
        (prepWords "zzq! the2 ...  HeLLo").filter
          (fun w => !(effectiveDictionary sampleBreaker).contains w)⟩ :=
  ⟨by decide, (validateText_spec sampleBreaker "zzq! the2 ...  HeLLo").2.2 (by decide)⟩

/-- C10: the invalidWords sequence holds the stripped, uppercased
forms of the failing tokens — each entry is one of the prepared
tokens — and not the tokens as they originally appeared: validating
"zzq!" against any dictionary not containing "ZZQ" yields
invalidWords = ["ZZQ"], not ["zzq!"]. -/
theorem validateText_invalidWords_stripped
    (B : Breaker) (hz : (effectiveDictionary B).contains "ZZQ" = false) :
    (∀ t w, w ∈ (validateText B t).invalidWords → w ∈ prepWords t) ∧
    (validateText B "zzq!").invalidWords = ["ZZQ"] := by
  constructor
  · intro t w hw
    rw [validateText_eq] at hw
    by_cases h : prepWords t = []
    · rw [if_pos h] at hw
      exact absurd hw (List.not_mem_nil w)
    · rw [if_neg h] at hw
      exact List.mem_of_mem_filter hw
  · rw [validateText_eq]
    have hp : prepWords "zzq!" = ["ZZQ"] := by decide
    rw [hp]
    rw [if_neg (by simp)]
    simp [hz]
    simpa using hz

/-- C10 witness: the theorem applied at a concrete breaker whose
dictionary does not contain "ZZQ". -/
theorem validateText_invalidWords_stripped_witness :
    (effectiveDictionary sampleBreaker).contains "ZZQ" = false ∧
    ((∀ t w, w ∈ (validateText sampleBreaker t).invalidWords → w ∈ prepWords t) ∧
      (validateText sampleBreaker "zzq!").invalidWords = ["ZZQ"]) :=
  ⟨by decide, validateText_invalidWords_stripped sampleBreaker (by decide)⟩

/-- C3 counterexample: +Infinity is a number and is not NaN, so it
passes `normalizeScore`'s input guard; the score scales to +Infinity
through max/division/weighting and the final clamp returns 1, not 0 —
refuting the claim that every non-finite rawScore yields 0. -/
theorem normalizeScore_posInf_counterexample :
    normalizeScore "caesar" (JSRaw.num JSNum.posInf) ⟨none, false⟩ = JSNum.fin 1 ∧
    JSNum.fin 1 ≠ JSNum.fin 0 := by
  constructor
  · with_unfolding_all decide
  · with_unfolding_all decide

/-- C3 (amended): `normalizeScore` is total (never raises) and returns
0 for every rawScore that is not a number (the typeof guard), is NaN
(the isNaN guard), or is -Infinity (through the max(0,·) clamp); but
+Infinity is not caught and clamps to 1 instead (see the
counterexample). -/
theorem normalizeScore_nonfinite_zero (method : String) (options : NormalizeOptions) :
    normalizeScore method JSRaw.notNum options = JSNum.fin 0 ∧
    normalizeScore method (JSRaw.num JSNum.nan) options = JSNum.fin 0 ∧
    normalizeScore method (JSRaw.num JSNum.negInf) options = JSNum.fin 0 := by
  refine ⟨rfl, rfl, ?_⟩
  rw [normalizeScore]
  rw [if_neg (by simp)]
  rcases options with ⟨vwp, ps⟩
  match vwp with
  | none =>
    cases ps <;> simp [truthyNum, jsMaxC, jsMinC, jsDivC, jsAddC, jsMul]
  | some JSNum.nan =>
    cases ps <;> simp [truthyNum, jsMaxC, jsMinC, jsDivC, jsAddC, jsMul]
  | some JSNum.posInf =>
    cases ps <;> simp [truthyNum, jsMaxC, jsMinC, jsDivC, jsAddC, jsMul]
  | some JSNum.negInf =>
    cases ps <;> simp [truthyNum, jsMaxC, jsMinC, jsDivC, jsAddC, jsMul]
  | some (JSNum.fin q) =>
    cases ps <;> by_cases hq : q = 0 <;>
      simp [truthyNum, hq, jsMaxC, jsMinC, jsDivC, jsAddC, jsMul]

/-- C4 counterexample: at validWordPercentage = 0 the option is falsy
in JavaScript, so the word-validation bonus branch is skipped
entirely; with rawScore 1000 and an unknown method the result is 1,
not the 0.3 the claim's multiplier would give — refuting the claim
that the multiplier 0.3 + 0.7·clamp(0,0,100)/100 = 0.3 is applied at
0%. -/
theorem normalizeScore_zero_percentage_counterexample :
    normalizeScore "unknown" (JSRaw.num (JSNum.fin 1000)) ⟨some (JSNum.fin 0), false⟩ =
      JSNum.fin 1 ∧
    JSNum.fin 1 ≠ JSNum.fin (3/10) := by
  constructor
  · with_unfolding_all decide
  · with_unfolding_all decide

/-- C4 (amended): when validWordPercentage is provided as a nonzero
finite value (truthy), `normalizeScore` multiplies the weighted base
by 0.3 + 0.7·clamp(pct,0,100)/100 before the preserves-spaces bonus
and the final clamp; but when it is provided as 0 the option is falsy,
the whole bonus branch is skipped, and the score is exactly as if no
percentage had been provided (multiplier 1, not 0.3) — so a 0% word
validity still never zeroes the score. -/
theorem normalizeScore_word_bonus (method : String) (r q : ℚ) (ps : Bool) (hq : q ≠ 0) :
    normalizeScore method (JSRaw.num (JSNum.fin r)) ⟨some (JSNum.fin q), ps⟩ =
      JSNum.fin (max 0 (min 1 ((max 0 r)/1000 * scoreWeight method *
        (3/10 + 7/10 * (max 0 (min 100 q) / 100)) * (if ps then 12/10 else 1)))) ∧
    normalizeScore method (JSRaw.num (JSNum.fin r)) ⟨some (JSNum.fin 0), ps⟩ =
      normalizeScore method (JSRaw.num (JSNum.fin r)) ⟨none, ps⟩ := by
  constructor
  · rw [normalizeScore]
    rw [if_neg (by simp)]
    cases ps <;>
      simp [truthyNum, hq, jsMaxC, jsMinC, jsDivC, jsAddC, jsMul] <;>
      ring_nf
  · rw [normalizeScore, normalizeScore]
    simp [truthyNum]

/-- C4 (amended) witness: the theorem applied at a concrete method,
raw score and percentage. -/
theorem normalizeScore_word_bonus_witness :
    (50 : ℚ) ≠ 0 ∧
    (normalizeScore "caesar" (JSRaw.num (JSNum.fin 500)) ⟨some (JSNum.fin 50), false⟩ =
      JSNum.fin (max 0 (min 1 ((max 0 (500 : ℚ))/1000 * scoreWeight "caesar" *
        (3/10 + 7/10 * (max 0 (min 100 (50 : ℚ)) / 100)) * (if false then 12/10 else 1)))) ∧
    normalizeScore "caesar" (JSRaw.num (JSNum.fin 500)) ⟨some (JSNum.fin 0), false⟩ =
      normalizeScore "caesar" (JSRaw.num (JSNum.fin 500)) ⟨none, false⟩) :=
  ⟨by norm_num, normalizeScore_word_bonus "caesar" 500 50 false (by norm_num)⟩
